import Mathlib

/-!
Verification development for the COSMIC `InitialCMCTable` module
(`cosmic/sample/initialcmctable.py`).

The Python module manipulates two pandas DataFrames (Singles and Binaries)
carrying star-cluster initial conditions, rescales them into N-body units,
injects black holes, and serializes them to HDF5/FITS files.

Shallow embedding choices:
* every numeric column value is modelled as a rational number `ℚ`
  (the Python code works with float64; the exact decimal literals of the
  source are used for its constants);
* a DataFrame is a list of row structures plus the instance attributes the
  class attaches to it;
* `np.sqrt` is passed in as an explicit function argument `sqrtFn : ℚ → ℚ`;
  theorems that depend on it behaving like a square root hypothesise that
  at the argument where it is applied;
* Python exceptions become `Except` results; since `AddBlackHoles` and
  `write` can mutate the tables before raising, the error value carries the
  table state at the moment the exception is raised;
* the external HDF5/FITS encoders are out of scope (per the spec); a file
  is modelled as the exact block/attribute content the source hands to them.
-/

namespace Cosmic

/-- Outer-boundary sentinel `1e100` appended to the radius array in
`ScaleToNBodyUnits` (source line 115). -/
def bigS : ℚ := 1e100

/-- `PARSEC_PER_RSUN` constant (source line 146). -/
def PARSEC_PER_RSUN : ℚ := 2.2546101516664447e-08

/-- Schwarzschild constant `2.122e-6` (G·Msun/c² in Rsun, source line 518). -/
def SCHWARZSCHILD_RSUN : ℚ := 2.122e-6

/-- Smallest positive normal double, written into the first sentinel row's
`r` by `write` (source line 336). -/
def DBL_MIN : ℚ := 2.2250738585072014e-308

/-- Outer sentinel radius written into the last on-disk Singles row's `r`
by `write` (source line 335). -/
def OUTER_R : ℚ := 1e40

/-- One row of the Singles table (columns of
`INITIAL_CONDITIONS_COLUMNS_CMC_SINGLES`). -/
structure SinglesRow where
  id : ℚ
  k : ℚ
  m : ℚ
  Reff : ℚ
  r : ℚ
  vr : ℚ
  vt : ℚ
  binind : ℚ
  deriving DecidableEq

/-- One row of the Binaries table (columns of
`INITIAL_CONDITIONS_COLUMNS_CMC_BINARIES`). -/
structure BinariesRow where
  index : ℚ
  id1 : ℚ
  k1 : ℚ
  m1 : ℚ
  Reff1 : ℚ
  id2 : ℚ
  k2 : ℚ
  m2 : ℚ
  Reff2 : ℚ
  a : ℚ
  e : ℚ
  deriving DecidableEq

/-- The Singles DataFrame together with the per-instance attributes of
`InitialCMCTable` (source lines 60-66). -/
structure SinglesTable where
  rows : List SinglesRow
  scaled_to_nbody_units : Bool := false
  metallicity : Option ℚ := none
  mass_of_cluster : Option ℚ := none
  virial_radius : Option ℚ := none
  tidal_radius : Option ℚ := none
  central_bh : ℚ := 0
  scale_with_central_bh : Bool := false
  deriving DecidableEq

/-- The Binaries DataFrame; it carries the `scaled_to_nbody_units` flag set
in lock-step with its Singles table. -/
structure BinariesTable where
  rows : List BinariesRow
  scaled_to_nbody_units : Bool := false
  deriving DecidableEq

/-! ### numpy-style list arithmetic used by the scaling engine -/

/-- `np.cumsum` with an accumulator. -/
def cumsumAux (acc : ℚ) : List ℚ → List ℚ
  | [] => []
  | x :: xs => (acc + x) :: cumsumAux (acc + x) xs

/-- `np.cumsum`. -/
def cumsum (l : List ℚ) : List ℚ := cumsumAux 0 l

/-- `radius_p1 = np.append(radius[1:], [1e100])` (source line 115). -/
def radiusP1 (rs : List ℚ) : List ℚ := rs.drop 1 ++ [bigS]

/-- The elementwise `1.0/radius - 1.0/radius_p1` factor of source line 129. -/
def invDiffs (rs : List ℚ) : List ℚ :=
  List.zipWith (fun r rp => 1 / r - 1 / rp) rs (radiusP1 rs)

/-- `cumul_mass * (1.0/radius - 1.0/radius_p1)` (source line 129). -/
def shellTerms (ms rs : List ℚ) : List ℚ :=
  List.zipWith (fun cm d => cm * d) (cumsum ms) (invDiffs rs)

/-- `KE = 0.5 * np.sum(mass * (vr ** 2 + vt ** 2))` (source line 126). -/
def keOf (ms vrs vts : List ℚ) : ℚ :=
  (1 / 2) * (List.zipWith (fun m v2 => m * v2) ms
    (List.zipWith (fun vr vt => vr ^ 2 + vt ^ 2) vrs vts)).sum

/-- `PE = 0.5 * np.sum(mass[::-1] * np.cumsum((cumul_mass * (1.0/radius -
1.0/radius_p1))[::-1]))` (source lines 127-130). -/
def peOf (ms rs : List ℚ) : ℚ :=
  (1 / 2) * (List.zipWith (fun m c => m * c) ms.reverse
    (cumsum (shellTerms ms rs).reverse)).sum

/-- `np.sum(Singles.central_bh * mass / radius)` (source line 134). -/
def bhTerm (bh : ℚ) (ms rs : List ℚ) : ℚ :=
  (List.zipWith (fun m r => bh * m / r) ms rs).sum

/-! ### The scaling engine (`ScaleToNBodyUnits`, source lines 79-156) -/

/-- Everything `ScaleToNBodyUnits` does before the `DistConv` conversion
(source lines 104-143): mass normalization of both tables, normalization of
the `central_bh` attribute (`ScaleCentralBHMass`), and the `rfac`/`vfac`
rescaling of `r`, `vr`, `vt`.  Split out because `write` can crash between
this stage and the next (when `virial_radius` is `None`), leaving the
tables in exactly this intermediate state. -/
def scaleCore (sqrtFn : ℚ → ℚ) (S : SinglesTable) (B : BinariesTable)
    (scale_with_central_bh : Bool) : SinglesTable × BinariesTable :=
  let M := (S.rows.map (·.m)).sum
  let rows1 := S.rows.map (fun row => { row with m := row.m / M })
  let brows1 := B.rows.map (fun row => { row with m1 := row.m1 / M, m2 := row.m2 / M })
  let cbh1 := S.central_bh / M
  let ms := rows1.map (·.m)
  let rs := rows1.map (·.r)
  let KE := keOf ms (rows1.map (·.vr)) (rows1.map (·.vt))
  let PE0 := peOf ms rs
  let PE := if scale_with_central_bh then PE0 + bhTerm cbh1 ms rs else PE0
  let rfac := 2 * PE
  let vfac := 1 / sqrtFn (4 * KE)
  let rows2 := rows1.map
    (fun row => { row with r := row.r * rfac, vr := row.vr * vfac, vt := row.vt * vfac })
  ({ S with rows := rows2, central_bh := cbh1 }, { B with rows := brows1 })

/-- `ScaleToNBodyUnits(Singles, Binaries, virial_radius=1, central_bh=0,
scale_with_central_bh=False)` (source lines 79-156).  The `central_bh`
argument appears in the source signature but is never used by the body
(the body reads the `Singles.central_bh` attribute instead); it is kept
here for signature fidelity. -/
def scaleToNBodyUnits (sqrtFn : ℚ → ℚ) (S : SinglesTable) (B : BinariesTable)
    (virial_radius : ℚ := 1) (central_bh : ℚ := 0)
    (scale_with_central_bh : Bool := false) : SinglesTable × BinariesTable :=
  let _ := central_bh
  let (S1, B1) := scaleCore sqrtFn S B scale_with_central_bh
  let DistConv := PARSEC_PER_RSUN / virial_radius
  let rows3 := S1.rows.map (fun row => { row with Reff := row.Reff * DistConv })
  let brows2 := B1.rows.map
    (fun row => { row with a := row.a * DistConv, Reff1 := row.Reff1 * DistConv,
                           Reff2 := row.Reff2 * DistConv })
  ({ S1 with rows := rows3, scaled_to_nbody_units := true },
   { B1 with rows := brows2, scaled_to_nbody_units := true })

/-! ### Python-level values and errors -/

/-- A Python value that can appear in a user-supplied `masses`/`radii`
sequence: a numeric value, or a non-numeric string. -/
inductive PyVal where
  | num (q : ℚ)
  | str (s : String)
  deriving DecidableEq

/-- The `masses`/`radii` argument of `AddBlackHoles`: a bare scalar or a
list (source accepts `int`/`float` or list-like). -/
inductive BHArg where
  | scalar (v : PyVal)
  | vals (vs : List PyVal)
  deriving DecidableEq

/-- A raised Python exception, by class and message. -/
inductive PyError where
  | valueError (msg : String)
  | typeError (msg : String)
  deriving DecidableEq

deriving instance DecidableEq for Except

/-- `np.array(xs, dtype=float)`: numeric entries convert; a non-numeric
string entry makes numpy itself raise
`ValueError: could not convert string to float` (numpy raises no
`AttributeError` here, so the module's `except AttributeError` handler on
source lines 486/499 can never fire). -/
def npFloatArray : List PyVal → Except PyError (List ℚ)
  | [] => .ok []
  | .num q :: rest => (npFloatArray rest).map (q :: ·)
  | .str _ :: _ => .error (.valueError "could not convert string to float")

/-- The scalar-or-array validation applied to `masses` and to `radii` in
`AddBlackHoles` (source lines 478-502): a positive scalar becomes a
one-element array; a list is converted with `np.array(-, dtype=float)` and
must be elementwise positive. -/
def parseNumArg (x : BHArg) (scalarMsg listMsg : String) : Except PyError (List ℚ) :=
  match x with
  | .scalar (.num q) =>
      if q ≤ 0 then .error (.valueError scalarMsg) else .ok [q]
  | .scalar (.str _) => .error (.valueError "could not convert string to float")
  | .vals vs =>
      match npFloatArray vs with
      | .error ex => .error ex
      | .ok qs =>
          if qs.any (· ≤ 0) then .error (.valueError listMsg) else .ok qs

/-! ### The black-hole injector (`AddBlackHoles`, source lines 451-538) -/

/-- `pandas.Series.max` over a column; the source only calls this on
non-empty tables (on an empty column pandas returns NaN, which is outside
this rational model — theorems therefore assume non-empty tables). -/
def colMax (l : List ℚ) : ℚ := l.foldl max (l.headD 0)

/-- `pandas.Series.min` over a column (same non-empty caveat as `colMax`). -/
def colMin (l : List ℚ) : ℚ := l.foldl min (l.headD 0)

/-- `max(Singles["id"].max(), Binaries["id1"].max(), Binaries["id2"].max())`
(source line 514). -/
def maxExistingId (S : SinglesTable) (B : BinariesTable) : ℚ :=
  max (max (colMax (S.rows.map (·.id))) (colMax (B.rows.map (·.id1))))
    (colMax (B.rows.map (·.id2)))

/-- `min(np.abs(Singles['vr'].min()), np.abs(Singles['vt'].min()))`
(source line 521).  Note: this is the minimum of the absolute values of the
two column minima, not the minimum absolute velocity in the cluster. -/
def minVelocity (S : SinglesTable) : ℚ :=
  min |colMin (S.rows.map (·.vr))| |colMin (S.rows.map (·.vt))|

/-- The block of new black-hole rows built on source lines 510-523, with
ids `nextId, nextId+1, ...` (`np.arange(starting_id, starting_id+Nbhs)`),
stellar type 14, `Reff = 2*mass*2.122e-6`, position from `radii`, and both
velocities equal to `0.01*min_velocity`.  All other columns stay at the
zero fill of the `np.zeros` frame. -/
def bhRowsAux (nextId vbh : ℚ) : List (ℚ × ℚ) → List SinglesRow
  | [] => []
  | (mq, rq) :: rest =>
      { id := nextId, k := 14, m := mq, Reff := 2 * mq * SCHWARZSCHILD_RSUN,
        r := rq, vr := vbh, vt := vbh, binind := 0 } :: bhRowsAux (nextId + 1) vbh rest

/-- The new rows appended by `AddBlackHoles` for validated mass/radius
arrays. -/
def bhRows (S : SinglesTable) (B : BinariesTable) (qm qr : List ℚ) : List SinglesRow :=
  bhRowsAux (maxExistingId S B + 1) ((1 / 100) * minVelocity S) (qm.zip qr)

/-- `AddBlackHoles(Singles, Binaries, masses, radii)` (source lines
451-538).  Validation errors are raised before any mutation; if
`mass_of_cluster` is `None` the final `+=` raises a `TypeError` *after*
the rows have been appended and sorted, so the error value carries the
table state at the moment of the raise.  (`print_bhs` only prints and is
omitted; pandas `sort_values` is an unstable sort — modelled with a stable
mergesort, which agrees whenever radii are distinct.) -/
def addBlackHoles (S : SinglesTable) (B : BinariesTable) (masses radii : BHArg) :
    Except (PyError × SinglesTable) SinglesTable :=
  match parseNumArg masses "Mass must be greater than 0" "Masses must be greater than 0" with
  | .error ex => .error (ex, S)
  | .ok qm =>
  match parseNumArg radii "Radius must be greater than 0" "Radii must be greater than 0" with
  | .error ex => .error (ex, S)
  | .ok qr =>
  if qm.length ≠ qr.length then
    .error (.valueError "masses and radii must be the same length", S)
  else
    let sortedRows := (S.rows ++ bhRows S B qm qr).mergeSort (fun a b => a.r ≤ b.r)
    match S.mass_of_cluster with
    | none =>
        .error (.typeError "unsupported operand type for +=: NoneType and float",
          { S with rows := sortedRows })
    | some mc =>
        .ok { S with rows := sortedRows, mass_of_cluster := some (mc + qm.sum) }

/-! ### The serializer/deserializer (`write`/`read`, source lines 252-427) -/

/-- The two on-disk formats. -/
inductive FileKind where
  | hdf5
  | fits
  deriving DecidableEq

/-- Substring containment test: Python's `needle in hay` on strings. -/
def containsSub (hay needle : List Char) : Bool :=
  needle.isPrefixOf hay ||
    match hay with
    | [] => false
    | _ :: t => containsSub t needle

/-- Message of the unrecognized-extension `ValueError` (source lines
292-294 and 417-419). -/
def extErrMsg : String :=
  "File extension not recognized, valid file types are fits and hdf5"

/-- The filename dispatch at the top of `write` (source lines 285-294):
substring containment tests for `.hdf5` / `.h5`, then `.fits`, else a
`ValueError`. -/
def checkExtensionWrite (filename : List Char) : Except PyError FileKind :=
  if containsSub filename (".hdf5".data) || containsSub filename (".h5".data) then
    .ok .hdf5
  else if containsSub filename (".fits".data) then .ok .fits
  else .error (.valueError extErrMsg)

/-- The identical filename dispatch at the top of `read` (source lines
410-419). -/
def checkExtensionRead (filename : List Char) : Except PyError FileKind :=
  if containsSub filename (".hdf5".data) || containsSub filename (".h5".data) then
    .ok .hdf5
  else if containsSub filename (".fits".data) then .ok .fits
  else .error (.valueError extErrMsg)

/-- The header attributes `write` attaches to the Singles block
(source lines 349-359 for HDF5, 374-380 for FITS; both store the same
fields). -/
structure FileHeader where
  EXTNAME : String
  NOBJ : ℤ
  NBINARY : ℤ
  MCLUS : Option ℚ
  RVIR : Option ℚ
  RTID : Option ℚ
  Z : Option ℚ
  deriving DecidableEq

/-- The logical content `write` hands to the external HDF5/FITS encoder:
the padded Singles block (`CLUS_OBJ_DATA`), the padded Binaries block
(`CLUS_BINARY_DATA`) and the header attributes.  The byte-level encoders
are external collaborators (spec §1) and are assumed faithful. -/
structure CMCFile where
  kind : FileKind
  singles_block : List SinglesRow
  binaries_block : List BinariesRow
  header : FileHeader
  deriving DecidableEq

/-- The keyword overrides accepted by `write` (source lines 296-300). -/
structure WriteKwargs where
  virial_radius : Option ℚ := none
  tidal_radius : Option ℚ := none
  metallicity : Option ℚ := none
  central_bh : Option ℚ := none
  scale_with_central_bh : Option Bool := none
  deriving DecidableEq

/-- An all-zero Singles row (`np.zeros((1, Singles.shape[1]))`). -/
def zeroSinglesRow : SinglesRow := ⟨0, 0, 0, 0, 0, 0, 0, 0⟩

/-- An all-zero Binaries row. -/
def zeroBinariesRow : BinariesRow := ⟨0, 0, 0, 0, 0, 0, 0, 0, 0, 0, 0⟩

/-- The padded on-disk blocks and header built on source lines 326-359:
an all-zero row is prepended and appended to the Singles data, the
prepended row's `r` is set to `DBL_MIN` and its `m` to the `central_bh`
attribute, the appended row's `r` to `1e40`; one all-zero row is prepended
to the Binaries data; `NOBJ`/`NBINARY` are the padded block lengths minus
2 resp. minus 1. -/
def mkFile (kind : FileKind) (S : SinglesTable) (B : BinariesTable)
    (rv rt z : Option ℚ) : CMCFile :=
  let sblock := ({ zeroSinglesRow with r := DBL_MIN, m := S.central_bh } :: S.rows)
    ++ [{ zeroSinglesRow with r := OUTER_R }]
  let bblock := zeroBinariesRow :: B.rows
  { kind := kind
    singles_block := sblock
    binaries_block := bblock
    header :=
      { EXTNAME := "CLUS_OBJ_DATA"
        NOBJ := (sblock.length : ℤ) - 2
        NBINARY := (bblock.length : ℤ) - 1
        MCLUS := S.mass_of_cluster
        RVIR := rv
        RTID := rt
        Z := z } }

/-- Message of the already-scaled-with-unknown-mass `ValueError`
(source lines 316-319). -/
def scaledErrMsg : String :=
  "In order to save the initial conditions correctly, you cannot feed in Singles and Binaries which have already been scaled"

/-- Message of the missing-metallicity `ValueError` (source lines 321-324). -/
def metErrMsg : String :=
  "The user has not supplied a metallicity for the cluster. Please set the Singles.metallicity attribute"

/-- Python's `kwargs.pop(key, fallback)` for an optional attribute: the
keyword value when given, else the table attribute. -/
def resolveOpt (kwv : Option ℚ) (attr : Option ℚ) : Option ℚ := (kwv.map some).getD attr

/-- The tail of `write` after the optional scaling step (source lines
321-391): the metallicity check against the Singles *attribute*, then the
block/header construction. -/
def writeAfterScale (kind : FileKind) (rv rt met : Option ℚ)
    (S1 : SinglesTable) (B1 : BinariesTable) :
    Except (PyError × SinglesTable × BinariesTable)
      (SinglesTable × BinariesTable × CMCFile) :=
  if S1.metallicity = none then .error (.valueError metErrMsg, S1, B1)
  else .ok (S1, B1, mkFile kind S1 B1 rv rt met)

/-- The `mass_of_cluster` bookkeeping of source lines 305-313: when it is
still unset it is recorded as the current total Singles mass plus the
resolved `central_bh` before scaling. -/
def writeS0 (S : SinglesTable) (cbh : ℚ) : SinglesTable :=
  match S.mass_of_cluster with
  | none => { S with mass_of_cluster := some ((S.rows.map (·.m)).sum + cbh) }
  | some _ => S

/-- `write(Singles, Binaries, filename, **kwargs)` (source lines 252-391).
Mirrors the source's order of effects: extension dispatch, keyword
resolution, the three scaling branches (which mutate the tables in place
*before* the metallicity check), the metallicity check, then block/header
construction.  On success it returns the mutated tables and the file
content; on an exception it returns the error together with the table
state at the raise (no file is produced in that case).  When scaling is
required but the resolved `virial_radius` is `None`, the Python code
crashes with a `TypeError` at the `DistConv` division (line 147) after the
mass/position/velocity rescaling has already happened; the error state is
exactly `scaleCore`'s output. -/
def write (sqrtFn : ℚ → ℚ) (S : SinglesTable) (B : BinariesTable)
    (filename : List Char) (kw : WriteKwargs) :
    Except (PyError × SinglesTable × BinariesTable)
      (SinglesTable × BinariesTable × CMCFile) :=
  match checkExtensionWrite filename with
  | .error ex => .error (ex, S, B)
  | .ok kind =>
    if S.scaled_to_nbody_units then
      match S.mass_of_cluster with
      | none => .error (.valueError scaledErrMsg, S, B)
      | some _ =>
          writeAfterScale kind (resolveOpt kw.virial_radius S.virial_radius)
            (resolveOpt kw.tidal_radius S.tidal_radius)
            (resolveOpt kw.metallicity S.metallicity) S B
    else
      match resolveOpt kw.virial_radius S.virial_radius with
      | none =>
          .error (.typeError "unsupported operand type for /: float and NoneType",
            (scaleCore sqrtFn (writeS0 S (kw.central_bh.getD S.central_bh)) B
              (kw.scale_with_central_bh.getD S.scale_with_central_bh)).1,
            (scaleCore sqrtFn (writeS0 S (kw.central_bh.getD S.central_bh)) B
              (kw.scale_with_central_bh.getD S.scale_with_central_bh)).2)
      | some vq =>
          writeAfterScale kind (resolveOpt kw.virial_radius S.virial_radius)
            (resolveOpt kw.tidal_radius S.tidal_radius)
            (resolveOpt kw.metallicity S.metallicity)
            (scaleToNBodyUnits sqrtFn (writeS0 S (kw.central_bh.getD S.central_bh)) B vq
              (kw.central_bh.getD S.central_bh)
              (kw.scale_with_central_bh.getD S.scale_with_central_bh)).1
            (scaleToNBodyUnits sqrtFn (writeS0 S (kw.central_bh.getD S.central_bh)) B vq
              (kw.central_bh.getD S.central_bh)
              (kw.scale_with_central_bh.getD S.scale_with_central_bh)).2

/-- `read(filename)` (source lines 394-427): the same suffix dispatch as
`write`, then reconstruction of the two tables exactly as stored (sentinel
rows included).  Both `pd.read_hdf` and the FITS path return fresh table
objects, so all instance attributes are the class defaults.  (A file whose
on-disk format does not match its filename suffix fails inside the
external I/O layer, which is not modelled.) -/
def read (filename : List Char) (f : CMCFile) :
    Except PyError (SinglesTable × BinariesTable) :=
  match checkExtensionRead filename with
  | .error ex => .error ex
  | .ok _ =>
      .ok ({ rows := f.singles_block }, { rows := f.binaries_block })

/-- A computable square root on ℚ that is exact whenever numerator and
denominator are perfect squares; used to instantiate `sqrtFn` in concrete
witnesses. -/
def ratSqrt (q : ℚ) : ℚ := (Nat.sqrt q.num.toNat : ℚ) / (Nat.sqrt q.den : ℚ)

/-! ### Arithmetic lemmas about the scaling-engine building blocks -/

theorem length_cumsumAux (a : ℚ) (l : List ℚ) : (cumsumAux a l).length = l.length := by
  induction l generalizing a <;> simp [cumsumAux, *]

theorem length_cumsum (l : List ℚ) : (cumsum l).length = l.length :=
  length_cumsumAux 0 l

theorem cumsumAux_eq_map (a : ℚ) (l : List ℚ) :
    cumsumAux a l = (cumsum l).map (a + ·) := by
  induction l generalizing a with
  | nil => simp [cumsum, cumsumAux]
  | cons x xs ih =>
      simp only [cumsum, cumsumAux, List.map_cons, zero_add]
      refine List.cons_eq_cons.mpr ⟨rfl, ?_⟩
      rw [ih (a + x), ih x]
      simp only [cumsum, List.map_map]
      congr 1
      funext y
      simp [add_assoc]

theorem cumsumAux_append (a : ℚ) (l₁ l₂ : List ℚ) :
    cumsumAux a (l₁ ++ l₂) = cumsumAux a l₁ ++ cumsumAux (a + l₁.sum) l₂ := by
  induction l₁ generalizing a with
  | nil => simp [cumsumAux]
  | cons x xs ih => simp [cumsumAux, ih, add_assoc]

/-- Suffix sums: entry `i` is the sum of the entries from `i` on. -/
def suffixSums : List ℚ → List ℚ
  | [] => []
  | x :: xs => (x + xs.sum) :: suffixSums xs

theorem length_suffixSums (l : List ℚ) : (suffixSums l).length = l.length := by
  induction l <;> simp [suffixSums, *]

theorem cumsum_reverse_reverse (l : List ℚ) :
    (cumsum l.reverse).reverse = suffixSums l := by
  induction l with
  | nil => simp [cumsum, cumsumAux, suffixSums]
  | cons x xs ih =>
      simp only [List.reverse_cons, suffixSums, cumsum] at *
      rw [cumsumAux_append]
      simp only [List.reverse_append, cumsumAux, zero_add, List.sum_reverse]
      simp [ih, add_comm]

theorem sum_zipWith_map_add_left (a : ℚ) (l ys : List ℚ) (h : l.length = ys.length) :
    (List.zipWith (fun m c => m * c) (l.map (a + ·)) ys).sum =
      a * ys.sum + (List.zipWith (fun m c => m * c) l ys).sum := by
  induction l generalizing ys with
  | nil => cases ys with
      | nil => simp
      | cons y ys => simp at h
  | cons x xs ih =>
      cases ys with
      | nil => simp at h
      | cons y ys =>
          simp only [List.length_cons, Nat.add_right_cancel_iff] at h
          simp only [List.map_cons, List.zipWith_cons_cons, List.sum_cons]
          rw [ih ys h]
          ring

/-- Summation by parts: pairing a list against suffix sums equals pairing
its prefix sums against the list. -/
theorem abel_sum (ms ts : List ℚ) (h : ms.length = ts.length) :
    (List.zipWith (fun m c => m * c) ms (suffixSums ts)).sum =
      (List.zipWith (fun m c => m * c) (cumsum ms) ts).sum := by
  induction ms generalizing ts with
  | nil => cases ts with
      | nil => simp
      | cons t ts => simp at h
  | cons m ms ih =>
      cases ts with
      | nil => simp at h
      | cons t ts =>
          simp only [List.length_cons, Nat.add_right_cancel_iff] at h
          simp only [suffixSums, cumsum, cumsumAux, zero_add, List.zipWith_cons_cons,
            List.sum_cons]
          rw [cumsumAux_eq_map, sum_zipWith_map_add_left m (cumsum ms) ts
            (by rw [length_cumsum]; exact h), ih ts h]
          ring

theorem length_invDiffs (rs : List ℚ) : (invDiffs rs).length = rs.length := by
  cases rs <;> simp [invDiffs, radiusP1]

theorem length_shellTerms (ms rs : List ℚ) (h : ms.length = rs.length) :
    (shellTerms ms rs).length = ms.length := by
  simp [shellTerms, length_cumsum, length_invDiffs, h]

/-- The reverse/cumsum expression of the source's potential-energy line
rewritten via prefix sums. -/
theorem peOf_eq_zip_cumsum (ms rs : List ℚ) (h : ms.length = rs.length) :
    peOf ms rs = (1 / 2) *
      (List.zipWith (fun m c => m * c) (cumsum ms) (shellTerms ms rs)).sum := by
  have hlen : ms.length = (shellTerms ms rs).length := (length_shellTerms ms rs h).symm
  have h1 : cumsum (shellTerms ms rs).reverse = (suffixSums (shellTerms ms rs)).reverse := by
    rw [← cumsum_reverse_reverse (shellTerms ms rs), List.reverse_reverse]
  rw [peOf, h1, ← List.reverse_zipWith (by simp [hlen, length_suffixSums]),
    List.sum_reverse, abel_sum ms (shellTerms ms rs) hlen]

/-- Recursive normal form of the shell potential-energy sum: the
accumulator is the cumulative mass so far. -/
def peCore (acc : ℚ) : List ℚ → List ℚ → ℚ
  | m :: ms, r :: rs =>
      (acc + m) * ((acc + m) * (1 / r - 1 / (rs.headD bigS))) + peCore (acc + m) ms rs
  | _, _ => 0

theorem invDiffs_cons (r : ℚ) (rs : List ℚ) :
    invDiffs (r :: rs) = (1 / r - 1 / (rs.headD bigS)) :: invDiffs rs := by
  cases rs <;> simp [invDiffs, radiusP1]

theorem zip_shell_eq_peCore (a : ℚ) (ms rs : List ℚ) (h : ms.length = rs.length) :
    (List.zipWith (fun m c => m * c) (cumsumAux a ms)
      (List.zipWith (fun cm d => cm * d) (cumsumAux a ms) (invDiffs rs))).sum =
      peCore a ms rs := by
  induction ms generalizing rs a with
  | nil => cases rs with
      | nil => simp [cumsumAux, peCore]
      | cons r rs => simp at h
  | cons m ms ih =>
      cases rs with
      | nil => simp at h
      | cons r rs =>
          simp only [List.length_cons, Nat.add_right_cancel_iff] at h
          simp only [cumsumAux, invDiffs_cons, List.zipWith_cons_cons, List.sum_cons]
          rw [ih (a + m) rs h, peCore]

/-- `shellTerms` with the prefix-sum accumulator shifted by `a`. -/
theorem peOf_eq_peCore (ms rs : List ℚ) (h : ms.length = rs.length) :
    peOf ms rs = (1 / 2) * peCore 0 ms rs := by
  rw [peOf_eq_zip_cumsum ms rs h, shellTerms, cumsum, zip_shell_eq_peCore 0 ms rs h]

/-- Positivity of the shell potential-energy sum for positive masses and
sorted positive radii below the outer sentinel. -/
theorem peCore_pos (ms : List ℚ) : ∀ (rs : List ℚ) (a : ℚ),
    ms.length = rs.length → ms ≠ [] → 0 ≤ a →
    (∀ m ∈ ms, 0 < m) → (∀ r ∈ rs, 0 < r ∧ r < bigS) →
    rs.Chain' (· ≤ ·) → 0 < peCore a ms rs := by
  induction ms with
  | nil => intro rs a _ hne _ _ _ _; exact absurd rfl hne
  | cons m ms ih =>
      intro rs a hlen _ ha hm hr hchain
      cases rs with
      | nil => simp at hlen
      | cons r rs =>
          simp only [List.length_cons, Nat.add_right_cancel_iff] at hlen
          have hma : 0 < a + m := by
            have := hm m (List.mem_cons_self m ms)
            linarith
          have hrr := hr r (List.mem_cons_self r rs)
          cases ms with
          | nil =>
              have hrs : rs = [] := List.eq_nil_of_length_eq_zero hlen.symm
              subst hrs
              simp only [peCore, List.headD_nil]
              have hd : 0 < 1 / r - 1 / bigS := by
                have h1 : 1 / bigS < 1 / r := by
                  exact one_div_lt_one_div_of_lt hrr.1 hrr.2
                linarith
              have : 0 < (a + m) * ((a + m) * (1 / r - 1 / bigS)) := by positivity
              simpa [peCore] using this
          | cons m2 ms2 =>
              cases rs with
              | nil => simp at hlen
              | cons r2 rs2 =>
                  have hrec : 0 < peCore (a + m) (m2 :: ms2) (r2 :: rs2) := by
                    refine ih (r2 :: rs2) (a + m) hlen (by simp) (le_of_lt hma) ?_ ?_ ?_
                    · intro x hx; exact hm x (List.mem_cons_of_mem m hx)
                    · intro x hx; exact hr x (List.mem_cons_of_mem r hx)
                    · exact (List.chain'_cons'.mp hchain).2
                  have hdnn : 0 ≤ 1 / r - 1 / r2 := by
                    have hrle : r ≤ r2 := by
                      have := List.chain'_cons.mp hchain
                      exact this.1
                    have hr2 := hr r2 (by simp)
                    have : 1 / r2 ≤ 1 / r := one_div_le_one_div_of_le hrr.1 hrle
                    linarith
                  have hterm : 0 ≤ (a + m) * ((a + m) * (1 / r - 1 / r2)) := by positivity
                  simp only [peCore, List.headD_cons] at hrec ⊢
                  linarith

/-- Scaling all radii by `c` divides the shell sum by `c`, up to the
outer-sentinel correction term (the appended `1e100` is not scaled). -/
theorem peCore_scale (ms : List ℚ) : ∀ (rs : List ℚ) (a c : ℚ),
    ms.length = rs.length → ms ≠ [] →
    peCore a ms (rs.map (· * c)) =
      (1 / c) * peCore a ms rs + (a + ms.sum) ^ 2 * (1 / (c * bigS) - 1 / bigS) := by
  induction ms with
  | nil => intro rs a c _ hne; exact absurd rfl hne
  | cons m ms ih =>
      intro rs a c hlen _
      cases rs with
      | nil => simp at hlen
      | cons r rs =>
          simp only [List.length_cons, Nat.add_right_cancel_iff] at hlen
          cases ms with
          | nil =>
              have hrs : rs = [] := List.eq_nil_of_length_eq_zero hlen.symm
              subst hrs
              simp only [List.map_cons, List.map_nil, peCore, List.headD_nil, List.sum_cons,
                List.sum_nil]
              rw [show (1 : ℚ) / (r * c) = (1 / c) * (1 / r) by rw [one_div, mul_inv]; ring]
              rw [show (1 : ℚ) / (c * bigS) = (1 / c) * (1 / bigS) by rw [one_div, mul_inv]; ring]
              ring
          | cons m2 ms2 =>
              cases rs with
              | nil => simp at hlen
              | cons r2 rs2 =>
                  have hrec := ih (r2 :: rs2) (a + m) c hlen (by simp)
                  simp only [List.map_cons, peCore, List.headD_cons] at hrec ⊢
                  rw [hrec]
                  have h1 : 1 / (r * c) = (1 / c) * (1 / r) := by
                    rw [one_div, mul_inv]
                    ring
                  have h2 : 1 / (r2 * c) = (1 / c) * (1 / r2) := by
                    rw [one_div, mul_inv]
                    ring
                  rw [h1, h2]
                  simp only [List.sum_cons]
                  ring

theorem sum_map_div (ms : List ℚ) (M : ℚ) : (ms.map (· / M)).sum = ms.sum / M := by
  induction ms with
  | nil => simp
  | cons m ms ih => simp [ih]; ring

/-- Normalizing the masses divides the kinetic energy by the total mass. -/
theorem keOf_map_div (ms vrs vts : List ℚ) (M : ℚ) :
    keOf (ms.map (· / M)) vrs vts = keOf ms vrs vts / M := by
  rw [keOf, keOf]
  induction ms generalizing vrs vts with
  | nil => simp
  | cons m ms ih =>
      cases vrs with
      | nil => simp
      | cons vr vrs =>
          cases vts with
          | nil => simp
          | cons vt vts =>
              simp only [List.map_cons, List.zipWith_cons_cons, List.sum_cons]
              rw [mul_add, mul_add, ih vrs vts]
              ring

/-- Scaling both velocity columns by `v` multiplies the kinetic energy
by `v²`. -/
theorem keOf_map_mul (ms vrs vts : List ℚ) (v : ℚ) :
    keOf ms (vrs.map (· * v)) (vts.map (· * v)) = v ^ 2 * keOf ms vrs vts := by
  rw [keOf, keOf]
  induction ms generalizing vrs vts with
  | nil => simp
  | cons m ms ih =>
      cases vrs with
      | nil => simp
      | cons vr vrs =>
          cases vts with
          | nil => simp
          | cons vt vts =>
              simp only [List.map_cons, List.zipWith_cons_cons, List.sum_cons]
              rw [mul_add, mul_add, ih vrs vts]
              ring

/-- Scaling the radii by `c` divides the central-black-hole potential term
by `c`. -/
theorem bhTerm_map_mul (bh : ℚ) (ms rs : List ℚ) (c : ℚ) :
    bhTerm bh ms (rs.map (· * c)) = (1 / c) * bhTerm bh ms rs := by
  rw [bhTerm, bhTerm]
  induction ms generalizing rs with
  | nil => simp
  | cons m ms ih =>
      cases rs with
      | nil => simp
      | cons r rs =>
          simp only [List.map_cons, List.zipWith_cons_cons, List.sum_cons]
          rw [mul_add, ih rs]
          congr 1
          rw [div_eq_mul_inv, div_eq_mul_inv, mul_inv]
          ring

/-! ### Named quantities of a `ScaleToNBodyUnits` run -/

/-- `M_total = sum(Singles[m])` (source line 104). -/
def Mtot (S : SinglesTable) : ℚ := (S.rows.map (·.m)).sum

/-- The normalized mass column after source line 105. -/
def msN (S : SinglesTable) : List ℚ := S.rows.map (fun row => row.m / Mtot S)

/-- The kinetic energy computed on source line 126 (normalized masses,
original velocities). -/
def keN (S : SinglesTable) : ℚ :=
  keOf (msN S) (S.rows.map (·.vr)) (S.rows.map (·.vt))

/-- The potential energy computed on source lines 127-134, including the
central-black-hole term when `scale_with_central_bh` is set. -/
def peFull (S : SinglesTable) (swcb : Bool) : ℚ :=
  if swcb then
    peOf (msN S) (S.rows.map (·.r)) +
      bhTerm (S.central_bh / Mtot S) (msN S) (S.rows.map (·.r))
  else peOf (msN S) (S.rows.map (·.r))

/-- `rfac = 2 * PE` (source line 137). -/
def rfacOf (S : SinglesTable) (swcb : Bool) : ℚ := 2 * peFull S swcb

/-- `vfac = 1.0 / np.sqrt(4 * KE)` (source line 138). -/
def vfacOf (f : ℚ → ℚ) (S : SinglesTable) : ℚ := 1 / f (4 * keN S)

theorem scaleCore_fst (f : ℚ → ℚ) (S : SinglesTable) (B : BinariesTable) (swcb : Bool) :
    (scaleCore f S B swcb).1 =
      { S with
        rows := S.rows.map (fun row =>
          { row with m := row.m / Mtot S, r := row.r * rfacOf S swcb,
                      vr := row.vr * vfacOf f S, vt := row.vt * vfacOf f S })
        central_bh := S.central_bh / Mtot S } := by
  simp only [scaleCore, rfacOf, peFull, vfacOf, keN, msN, Mtot, List.map_map,
    Function.comp_def]

theorem scaleCore_snd (f : ℚ → ℚ) (S : SinglesTable) (B : BinariesTable) (swcb : Bool) :
    (scaleCore f S B swcb).2 =
      { B with rows := B.rows.map (fun row =>
          { row with m1 := row.m1 / Mtot S, m2 := row.m2 / Mtot S }) } := by
  simp only [scaleCore, Mtot]

theorem scaleToNBodyUnits_fst (f : ℚ → ℚ) (S : SinglesTable) (B : BinariesTable)
    (vq cq : ℚ) (swcb : Bool) :
    (scaleToNBodyUnits f S B vq cq swcb).1 =
      { S with
        rows := S.rows.map (fun row =>
          { row with m := row.m / Mtot S, r := row.r * rfacOf S swcb,
                      vr := row.vr * vfacOf f S, vt := row.vt * vfacOf f S,
                      Reff := row.Reff * (PARSEC_PER_RSUN / vq) })
        central_bh := S.central_bh / Mtot S
        scaled_to_nbody_units := true } := by
  simp only [scaleToNBodyUnits, scaleCore_fst, List.map_map, Function.comp_def]

theorem scaleToNBodyUnits_snd (f : ℚ → ℚ) (S : SinglesTable) (B : BinariesTable)
    (vq cq : ℚ) (swcb : Bool) :
    (scaleToNBodyUnits f S B vq cq swcb).2 =
      { B with
        rows := B.rows.map (fun row =>
          { row with m1 := row.m1 / Mtot S, m2 := row.m2 / Mtot S,
                      a := row.a * (PARSEC_PER_RSUN / vq),
                      Reff1 := row.Reff1 * (PARSEC_PER_RSUN / vq),
                      Reff2 := row.Reff2 * (PARSEC_PER_RSUN / vq) })
        scaled_to_nbody_units := true } := by
  simp only [scaleToNBodyUnits, scaleCore_snd, scaleCore_fst, List.map_map,
    Function.comp_def]

theorem post_m_col (f : ℚ → ℚ) (S : SinglesTable) (B : BinariesTable)
    (vq cq : ℚ) (swcb : Bool) :
    (scaleToNBodyUnits f S B vq cq swcb).1.rows.map (·.m) = msN S := by
  rw [scaleToNBodyUnits_fst]
  simp [List.map_map, Function.comp_def, msN]

theorem post_r_col (f : ℚ → ℚ) (S : SinglesTable) (B : BinariesTable)
    (vq cq : ℚ) (swcb : Bool) :
    (scaleToNBodyUnits f S B vq cq swcb).1.rows.map (·.r) =
      (S.rows.map (·.r)).map (· * rfacOf S swcb) := by
  rw [scaleToNBodyUnits_fst]
  simp [List.map_map, Function.comp_def]

theorem post_vr_col (f : ℚ → ℚ) (S : SinglesTable) (B : BinariesTable)
    (vq cq : ℚ) (swcb : Bool) :
    (scaleToNBodyUnits f S B vq cq swcb).1.rows.map (·.vr) =
      (S.rows.map (·.vr)).map (· * vfacOf f S) := by
  rw [scaleToNBodyUnits_fst]
  simp [List.map_map, Function.comp_def]

theorem post_vt_col (f : ℚ → ℚ) (S : SinglesTable) (B : BinariesTable)
    (vq cq : ℚ) (swcb : Bool) :
    (scaleToNBodyUnits f S B vq cq swcb).1.rows.map (·.vt) =
      (S.rows.map (·.vt)).map (· * vfacOf f S) := by
  rw [scaleToNBodyUnits_fst]
  simp [List.map_map, Function.comp_def]

theorem Mtot_pos (S : SinglesTable) (hne : S.rows ≠ [])
    (hm : ∀ row ∈ S.rows, 0 < row.m) : 0 < Mtot S := by
  apply List.sum_pos
  · intro x hx
    obtain ⟨row, hrow, rfl⟩ := List.mem_map.mp hx
    exact hm row hrow
  · simpa using hne

theorem msN_sum (S : SinglesTable) (hM : Mtot S ≠ 0) : (msN S).sum = 1 := by
  have h : msN S = (S.rows.map (·.m)).map (· / Mtot S) := by
    simp [msN, List.map_map, Function.comp_def]
  rw [h, sum_map_div, ← Mtot, div_self hM]

theorem bhTerm_nonneg (bh : ℚ) (ms rs : List ℚ) (hbh : 0 ≤ bh)
    (hm : ∀ m ∈ ms, 0 ≤ m) (hr : ∀ r ∈ rs, 0 ≤ r) : 0 ≤ bhTerm bh ms rs := by
  rw [bhTerm]
  induction ms generalizing rs with
  | nil => simp
  | cons m ms ih =>
      cases rs with
      | nil => simp
      | cons r rs =>
          simp only [List.zipWith_cons_cons, List.sum_cons]
          have h1 : 0 ≤ bh * m / r := by
            apply div_nonneg
            · exact mul_nonneg hbh (hm m (by simp))
            · exact hr r (by simp)
          have h2 : 0 ≤ (List.zipWith (fun m r => bh * m / r) ms rs).sum := by
            apply ih
            · intro x hx; exact hm x (List.mem_cons_of_mem m hx)
            · intro x hx; exact hr x (List.mem_cons_of_mem r hx)
          linarith

/-- Under the engine's preconditions the computed potential-energy sum
(including the optional central-black-hole term) is strictly positive. -/
theorem peFull_pos (S : SinglesTable) (swcb : Bool)
    (hne : S.rows ≠ []) (hm : ∀ row ∈ S.rows, 0 < row.m)
    (hr : ∀ row ∈ S.rows, 0 < row.r ∧ row.r < bigS)
    (hchain : (S.rows.map (·.r)).Chain' (· ≤ ·))
    (hbh : 0 ≤ S.central_bh) : 0 < peFull S swcb := by
  have hM : 0 < Mtot S := Mtot_pos S hne hm
  have hlen : (msN S).length = (S.rows.map (·.r)).length := by simp [msN]
  have hmsne : msN S ≠ [] := by
    simp only [msN, ne_eq, List.map_eq_nil_iff]
    exact hne
  have hmpos : ∀ x ∈ msN S, 0 < x := by
    intro x hx
    obtain ⟨row, hrow, rfl⟩ := List.mem_map.mp hx
    exact div_pos (hm row hrow) hM
  have hrcol : ∀ x ∈ S.rows.map (·.r), 0 < x ∧ x < bigS := by
    intro x hx
    obtain ⟨row, hrow, rfl⟩ := List.mem_map.mp hx
    exact hr row hrow
  have hpe : 0 < peOf (msN S) (S.rows.map (·.r)) := by
    rw [peOf_eq_peCore _ _ hlen]
    have := peCore_pos (msN S) (S.rows.map (·.r)) 0 hlen hmsne le_rfl hmpos hrcol hchain
    linarith
  cases swcb with
  | false => simpa [peFull] using hpe
  | true =>
      have hbt : 0 ≤ bhTerm (S.central_bh / Mtot S) (msN S) (S.rows.map (·.r)) := by
        apply bhTerm_nonneg
        · exact div_nonneg hbh (le_of_lt hM)
        · intro x hx; exact le_of_lt (hmpos x hx)
        · intro x hx; exact le_of_lt (hrcol x hx).1
      simp only [peFull, if_true]
      linarith

/-! ### Claim C1 -/

/-- C1 (amended): for a Singles table sorted ascending in `r` with positive
radii below the `1e100` sentinel, positive masses, a nonnegative central
black hole, positive kinetic energy, and a square-root routine that is
exact at its one call site, `ScaleToNBodyUnits` leaves the `m` column
summing to exactly 1 (the normalized central black hole adds
`central_bh / M` on top of that 1, so a mass sum "including" it exceeds 1);
re-evaluating the engine's kinetic-energy formula on the post-scale state
gives exactly 1/4, and re-evaluating the engine's potential-energy sum
(whose sign convention is positive, the physical PE being its negation)
gives exactly `1/2 + (1/rfac - 1)/(2e100)` — i.e. `+1/2` up to the
outer-sentinel correction, not `-1/2`. -/
theorem c1_scale_energies (f : ℚ → ℚ) (S : SinglesTable) (B : BinariesTable)
    (vq cq : ℚ) (swcb : Bool)
    (hne : S.rows ≠ [])
    (hm : ∀ row ∈ S.rows, 0 < row.m)
    (hr : ∀ row ∈ S.rows, 0 < row.r ∧ row.r < bigS)
    (hchain : (S.rows.map (·.r)).Chain' (· ≤ ·))
    (hbh : 0 ≤ S.central_bh)
    (hKE : 0 < keN S)
    (hsq : f (4 * keN S) ^ 2 = 4 * keN S) :
    ((scaleToNBodyUnits f S B vq cq swcb).1.rows.map (·.m)).sum = 1 ∧
    ((scaleToNBodyUnits f S B vq cq swcb).1.rows.map (·.m)).sum +
        (scaleToNBodyUnits f S B vq cq swcb).1.central_bh =
      1 + S.central_bh / Mtot S ∧
    keOf ((scaleToNBodyUnits f S B vq cq swcb).1.rows.map (·.m))
        ((scaleToNBodyUnits f S B vq cq swcb).1.rows.map (·.vr))
        ((scaleToNBodyUnits f S B vq cq swcb).1.rows.map (·.vt)) = 1 / 4 ∧
    peOf ((scaleToNBodyUnits f S B vq cq swcb).1.rows.map (·.m))
        ((scaleToNBodyUnits f S B vq cq swcb).1.rows.map (·.r)) +
      (if swcb then
        bhTerm (scaleToNBodyUnits f S B vq cq swcb).1.central_bh
          ((scaleToNBodyUnits f S B vq cq swcb).1.rows.map (·.m))
          ((scaleToNBodyUnits f S B vq cq swcb).1.rows.map (·.r))
      else 0) =
      1 / 2 + (1 / rfacOf S swcb - 1) / 2 * (1 / bigS) := by
  have hM : 0 < Mtot S := Mtot_pos S hne hm
  have hsum1 : (msN S).sum = 1 := msN_sum S (ne_of_gt hM)
  have hpe : 0 < peFull S swcb := peFull_pos S swcb hne hm hr hchain hbh
  have hrfac : rfacOf S swcb ≠ 0 := by
    rw [rfacOf]
    positivity
  have hcbh : (scaleToNBodyUnits f S B vq cq swcb).1.central_bh = S.central_bh / Mtot S := by
    rw [scaleToNBodyUnits_fst]
  have hmass : ((scaleToNBodyUnits f S B vq cq swcb).1.rows.map (·.m)).sum = 1 := by
    rw [post_m_col, hsum1]
  have hlenr : (msN S).length = (S.rows.map (·.r)).length := by simp [msN]
  have hmsne : msN S ≠ [] := by
    simp only [msN, ne_eq, List.map_eq_nil_iff]
    exact hne
  refine ⟨hmass, by rw [hmass, hcbh], ?_, ?_⟩
  · -- kinetic energy
    have hk : keOf (msN S) (S.rows.map (·.vr)) (S.rows.map (·.vt)) ≠ 0 := by
      rw [← keN]
      exact ne_of_gt hKE
    have hv : vfacOf f S ^ 2 = 1 / (4 * keN S) := by
      rw [vfacOf, div_pow, one_pow, hsq]
    rw [post_m_col, post_vr_col, post_vt_col, keOf_map_mul, hv, keN]
    rw [div_mul_eq_mul_div, one_mul, div_eq_iff (by positivity)]
    ring
  · -- potential energy
    have hsent : (1 : ℚ) / (rfacOf S swcb * bigS) = 1 / rfacOf S swcb * (1 / bigS) := by
      rw [one_div, mul_inv]
      ring
    have hfin : 1 / rfacOf S swcb * peFull S swcb = 1 / 2 := by
      rw [show peFull S swcb = rfacOf S swcb / 2 by rw [rfacOf]; ring]
      field_simp
    have hlenr2 : (msN S).length = ((S.rows.map (·.r)).map (· * rfacOf S swcb)).length := by
      simp [msN]
    cases swcb with
    | false =>
        simp only [Bool.false_eq_true, if_false, add_zero]
        rw [post_m_col, post_r_col, peOf_eq_peCore _ _ hlenr2,
          peCore_scale (msN S) (S.rows.map (·.r)) 0 (rfacOf S false) hlenr hmsne, hsum1,
          hsent]
        have hPE2 : (1 / 2 : ℚ) * peCore 0 (msN S) (S.rows.map (·.r)) = peFull S false := by
          rw [← peOf_eq_peCore _ _ hlenr, peFull]
          simp
        linear_combination (1 / rfacOf S false) * hPE2 + hfin
    | true =>
        simp only [if_true]
        rw [post_m_col, post_r_col, hcbh, peOf_eq_peCore _ _ hlenr2,
          peCore_scale (msN S) (S.rows.map (·.r)) 0 (rfacOf S true) hlenr hmsne, hsum1,
          bhTerm_map_mul, hsent]
        have hPE2 : (1 / 2 : ℚ) * peCore 0 (msN S) (S.rows.map (·.r)) +
            bhTerm (S.central_bh / Mtot S) (msN S) (S.rows.map (·.r)) = peFull S true := by
          rw [← peOf_eq_peCore _ _ hlenr, peFull]
          simp
        linear_combination (1 / rfacOf S true) * hPE2 + hfin

/-- A one-star table satisfying all of C1's stated preconditions
(`r` sorted, radii positive and distinct, total mass positive). -/
def cexC1S : SinglesTable := { rows := [⟨1, 1, 2, 1, 1, 1, 1, 0⟩] }

/-- An empty Binaries table used by several counterexamples. -/
def cexEmptyB : BinariesTable := { rows := [] }

/-- C1 (counterexample): on a table satisfying the claim's preconditions,
re-evaluating the engine's potential-energy formula on the post-scale state
does not give `-1/2` (it is `1/2` up to the sentinel correction, and
positive), so the claim as stated is false. -/
theorem c1_counterexample :
    ((cexC1S.rows.map (·.r)).Chain' (· < ·) ∧ (∀ row ∈ cexC1S.rows, 0 < row.r) ∧
      0 < (cexC1S.rows.map (·.m)).sum) ∧
    peOf ((scaleToNBodyUnits (fun q => q) cexC1S cexEmptyB 1 0 false).1.rows.map (·.m))
        ((scaleToNBodyUnits (fun q => q) cexC1S cexEmptyB 1 0 false).1.rows.map (·.r)) ≠
      -(1 / 2) := by
  constructor
  · refine ⟨by simp [cexC1S], ?_, by norm_num [cexC1S]⟩
    intro row hrow
    simp only [cexC1S, List.mem_singleton] at hrow
    subst hrow
    norm_num
  · norm_num [scaleToNBodyUnits, scaleCore, cexC1S, cexEmptyB, peOf, keOf, shellTerms,
      invDiffs, radiusP1, cumsum, cumsumAux, bhTerm, bigS, PARSEC_PER_RSUN]

/-- A one-star table whose kinetic energy after normalization is `1/4`, so
the square-root call site receives the perfect square `1`. -/
def exC1S : SinglesTable := { rows := [⟨1, 1, 2, 1, 1, 1/2, 1/2, 0⟩] }

/-- C1 (witness): the amended theorem instantiated on `exC1S` with the
identity as square-root routine (its argument there is `1`). -/
theorem c1_witness :
    (exC1S.rows ≠ [] ∧ (∀ row ∈ exC1S.rows, 0 < row.m) ∧
      (∀ row ∈ exC1S.rows, 0 < row.r ∧ row.r < bigS) ∧
      (exC1S.rows.map (·.r)).Chain' (· ≤ ·) ∧ 0 ≤ exC1S.central_bh ∧ 0 < keN exC1S ∧
      (fun q => q) (4 * keN exC1S) ^ 2 = 4 * keN exC1S) ∧
    (((scaleToNBodyUnits (fun q => q) exC1S cexEmptyB 1 0 false).1.rows.map (·.m)).sum = 1 ∧
     ((scaleToNBodyUnits (fun q => q) exC1S cexEmptyB 1 0 false).1.rows.map (·.m)).sum +
        (scaleToNBodyUnits (fun q => q) exC1S cexEmptyB 1 0 false).1.central_bh =
      1 + exC1S.central_bh / Mtot exC1S ∧
     keOf ((scaleToNBodyUnits (fun q => q) exC1S cexEmptyB 1 0 false).1.rows.map (·.m))
        ((scaleToNBodyUnits (fun q => q) exC1S cexEmptyB 1 0 false).1.rows.map (·.vr))
        ((scaleToNBodyUnits (fun q => q) exC1S cexEmptyB 1 0 false).1.rows.map (·.vt)) =
      1 / 4 ∧
     peOf ((scaleToNBodyUnits (fun q => q) exC1S cexEmptyB 1 0 false).1.rows.map (·.m))
        ((scaleToNBodyUnits (fun q => q) exC1S cexEmptyB 1 0 false).1.rows.map (·.r)) +
      (if false then
        bhTerm (scaleToNBodyUnits (fun q => q) exC1S cexEmptyB 1 0 false).1.central_bh
          ((scaleToNBodyUnits (fun q => q) exC1S cexEmptyB 1 0 false).1.rows.map (·.m))
          ((scaleToNBodyUnits (fun q => q) exC1S cexEmptyB 1 0 false).1.rows.map (·.r))
      else 0) =
      1 / 2 + (1 / rfacOf exC1S false - 1) / 2 * (1 / bigS)) := by
  have h1 : exC1S.rows ≠ [] := by simp [exC1S]
  have h2 : ∀ row ∈ exC1S.rows, 0 < row.m := by
    intro row hrow
    simp only [exC1S, List.mem_singleton] at hrow
    subst hrow
    norm_num
  have h3 : ∀ row ∈ exC1S.rows, 0 < row.r ∧ row.r < bigS := by
    intro row hrow
    simp only [exC1S, List.mem_singleton] at hrow
    subst hrow
    norm_num [bigS]
  have h4 : (exC1S.rows.map (·.r)).Chain' (· ≤ ·) := by simp [exC1S]
  have h5 : (0 : ℚ) ≤ exC1S.central_bh := by norm_num [exC1S]
  have h6 : 0 < keN exC1S := by
    norm_num [keN, msN, Mtot, keOf, exC1S]
  have h7 : (fun q => q) (4 * keN exC1S) ^ 2 = 4 * keN exC1S := by
    norm_num [keN, msN, Mtot, keOf, exC1S]
  exact ⟨⟨h1, h2, h3, h4, h5, h6, h7⟩,
    c1_scale_energies (fun q => q) exC1S cexEmptyB 1 0 false h1 h2 h3 h4 h5 h6 h7⟩

/-! ### Claim C4 -/

/-- Sorted ascending by the `r` column (the invariant the simulator
requires of the Singles table). -/
def sortedByR (l : List SinglesRow) : Prop := l.Pairwise (fun a b => a.r ≤ b.r)

/-- Any successful `AddBlackHoles` call produces rows that are a mergesort
of the old rows plus a block of new rows. -/
theorem addBlackHoles_ok_rows (S : SinglesTable) (B : BinariesTable)
    (masses radii : BHArg) (S2 : SinglesTable)
    (h : addBlackHoles S B masses radii = .ok S2) :
    ∃ qm qr, S2.rows = (S.rows ++ bhRows S B qm qr).mergeSort (fun a b => a.r ≤ b.r) := by
  rw [addBlackHoles] at h
  split at h
  · exact absurd h (by simp)
  · split at h
    · exact absurd h (by simp)
    · split at h
      · exact absurd h (by simp)
      · split at h
        · exact absurd h (by simp)
        · simp only [Except.ok.injEq] at h
          subst h
          exact ⟨_, _, rfl⟩

theorem sortedByR_mergeSort (l : List SinglesRow) :
    sortedByR (l.mergeSort (fun a b => a.r ≤ b.r)) := by
  have h := @List.sorted_mergeSort SinglesRow
    (fun a b : SinglesRow => decide (a.r ≤ b.r))
    (fun a b c hab hbc => by
      simp only [decide_eq_true_eq] at *
      exact le_trans hab hbc)
    (fun a b => by
      simp only [Bool.or_eq_true, decide_eq_true_eq]
      exact le_total a.r b.r) l
  exact h.imp (fun hab => by simpa using hab)

/-- C4 (amended): `ScaleToNBodyUnits` keeps the Singles rows sorted
ascending in `r` under the claim's preconditions (positive masses, positive
radii) *strengthened with* “all radii below the `1e100` outer sentinel and a
nonnegative central black hole” — without that the position scale factor
`rfac = 2·PE` can be negative and reverse the order; and every successful
`AddBlackHoles` call returns rows sorted ascending in `r` (it ends with an
explicit sort). -/
theorem c4_sorted_preserved (f : ℚ → ℚ) (S : SinglesTable) (B : BinariesTable)
    (vq cq : ℚ) (swcb : Bool)
    (S2 : SinglesTable) (B2 : BinariesTable) (masses radii : BHArg) (S3 : SinglesTable)
    (hm : ∀ row ∈ S.rows, 0 < row.m)
    (hr : ∀ row ∈ S.rows, 0 < row.r ∧ row.r < bigS)
    (hbh : 0 ≤ S.central_bh)
    (hsorted : sortedByR S.rows)
    (hok : addBlackHoles S2 B2 masses radii = .ok S3) :
    sortedByR (scaleToNBodyUnits f S B vq cq swcb).1.rows ∧ sortedByR S3.rows := by
  constructor
  · rcases eq_or_ne S.rows [] with hemp | hne
    · rw [scaleToNBodyUnits_fst]
      simp [sortedByR, hemp]
    · have hchain : (S.rows.map (·.r)).Chain' (· ≤ ·) := by
        apply List.Pairwise.chain'
        exact (List.pairwise_map).mpr hsorted
      have hpe : 0 < peFull S swcb := peFull_pos S swcb hne hm hr hchain hbh
      have hrfac : 0 < rfacOf S swcb := by
        rw [rfacOf]
        positivity
      rw [scaleToNBodyUnits_fst]
      simp only [sortedByR, List.pairwise_map]
      exact hsorted.imp (fun hab => by
        exact mul_le_mul_of_nonneg_right hab (le_of_lt hrfac))
  · obtain ⟨qm, qr, hrows⟩ := addBlackHoles_ok_rows S2 B2 masses radii S3 hok
    rw [hrows]
    exact sortedByR_mergeSort _

/-- A two-star table with both radii above the `1e100` sentinel: positive
masses, positive radii, sorted ascending — yet `rfac < 0` after scaling. -/
def cexC4S : SinglesTable :=
  { rows := [⟨1, 1, 1, 1, 1e100, 0, 0, 0⟩, ⟨2, 1, 1, 1, 2e100, 0, 0, 0⟩] }

/-- C4 (counterexample): with positive masses and positive sorted radii
(but radii above the outer sentinel), `ScaleToNBodyUnits` produces rows no
longer sorted ascending by `r`, so the claim as stated (with only
positivity preconditions) is false. -/
theorem c4_counterexample :
    ((∀ row ∈ cexC4S.rows, 0 < row.m) ∧ (∀ row ∈ cexC4S.rows, 0 < row.r) ∧
      sortedByR cexC4S.rows) ∧
    ¬ sortedByR (scaleToNBodyUnits (fun q => q) cexC4S cexEmptyB 1 0 false).1.rows := by
  refine ⟨⟨?_, ?_, ?_⟩, ?_⟩
  · intro row hrow
    simp only [cexC4S, List.mem_cons, List.not_mem_nil, or_false] at hrow
    rcases hrow with h | h <;> (subst h; norm_num)
  · intro row hrow
    simp only [cexC4S, List.mem_cons, List.not_mem_nil, or_false] at hrow
    rcases hrow with h | h <;> (subst h; norm_num)
  · norm_num [sortedByR, cexC4S]
  · norm_num [sortedByR, scaleToNBodyUnits, scaleCore, cexC4S, cexEmptyB, peOf, keOf,
      shellTerms, invDiffs, radiusP1, cumsum, cumsumAux, bhTerm, bigS, PARSEC_PER_RSUN]

/-! ### Claims C5 and C9: the black-hole injector's new rows -/

theorem npFloatArray_map_num (qs : List ℚ) :
    npFloatArray (qs.map PyVal.num) = .ok qs := by
  induction qs with
  | nil => rfl
  | cons q qs ih => simp [npFloatArray, ih, Except.map]

/-- Normal form of a valid `AddBlackHoles` call on numeric lists: all
validation passes and the new rows are appended then sorted. -/
theorem addBlackHoles_vals_ok (S : SinglesTable) (B : BinariesTable)
    (qm qr : List ℚ) (mc : ℚ)
    (hm : ∀ q ∈ qm, 0 < q) (hr : ∀ q ∈ qr, 0 < q) (hlen : qm.length = qr.length)
    (hmc : S.mass_of_cluster = some mc) :
    addBlackHoles S B (.vals (qm.map PyVal.num)) (.vals (qr.map PyVal.num)) =
      .ok { S with
        rows := (S.rows ++ bhRows S B qm qr).mergeSort (fun a b => a.r ≤ b.r)
        mass_of_cluster := some (mc + qm.sum) } := by
  have hany : ∀ (l : List ℚ), (∀ q ∈ l, 0 < q) → (l.any (· ≤ 0)) = false := by
    intro l hl
    simp only [List.any_eq_false, decide_eq_true_eq]
    intro x hx
    exact not_le.mpr (hl x hx)
  rw [addBlackHoles, parseNumArg, parseNumArg, npFloatArray_map_num, npFloatArray_map_num]
  simp only [hany qm hm, hany qr hr, Bool.false_eq_true, if_false, hlen, ne_eq,
    not_true_eq_false, hmc]

theorem length_bhRowsAux (n v : ℚ) (l : List (ℚ × ℚ)) :
    (bhRowsAux n v l).length = l.length := by
  induction l generalizing n with
  | nil => rfl
  | cons p l ih => simp [bhRowsAux, ih]

theorem bhRowsAux_map_id (n v : ℚ) (l : List (ℚ × ℚ)) :
    (bhRowsAux n v l).map (·.id) =
      (List.range l.length).map (fun j : ℕ => n + (j : ℚ)) := by
  induction l generalizing n with
  | nil => rfl
  | cons p l ih =>
      have hr : List.range (l.length + 1) = 0 :: (List.range l.length).map Nat.succ :=
        List.range_succ_eq_map l.length
      simp only [bhRowsAux, List.map_cons, List.length_cons, hr, List.map_map]
      refine List.cons_eq_cons.mpr ⟨by norm_num, ?_⟩
      rw [ih (n + 1)]
      congr 1
      funext j
      show (n + 1) + (j : ℚ) = n + ((Nat.succ j : ℕ) : ℚ)
      push_cast
      ring

theorem bhRowsAux_map_k (n v : ℚ) (l : List (ℚ × ℚ)) :
    (bhRowsAux n v l).map (·.k) = List.replicate l.length 14 := by
  induction l generalizing n with
  | nil => rfl
  | cons p l ih => simp [bhRowsAux, ih, List.replicate_succ]

theorem bhRowsAux_map_binind (n v : ℚ) (l : List (ℚ × ℚ)) :
    (bhRowsAux n v l).map (·.binind) = List.replicate l.length 0 := by
  induction l generalizing n with
  | nil => rfl
  | cons p l ih => simp [bhRowsAux, ih, List.replicate_succ]

theorem bhRowsAux_map_m (n v : ℚ) (l : List (ℚ × ℚ)) :
    (bhRowsAux n v l).map (·.m) = l.map Prod.fst := by
  induction l generalizing n with
  | nil => rfl
  | cons p l ih => simp [bhRowsAux, ih]

theorem bhRowsAux_map_r (n v : ℚ) (l : List (ℚ × ℚ)) :
    (bhRowsAux n v l).map (·.r) = l.map Prod.snd := by
  induction l generalizing n with
  | nil => rfl
  | cons p l ih => simp [bhRowsAux, ih]

theorem bhRowsAux_map_Reff (n v : ℚ) (l : List (ℚ × ℚ)) :
    (bhRowsAux n v l).map (·.Reff) =
      (l.map Prod.fst).map (fun q => 2 * q * SCHWARZSCHILD_RSUN) := by
  induction l generalizing n with
  | nil => rfl
  | cons p l ih => simp [bhRowsAux, ih]

theorem bhRowsAux_vel (n v : ℚ) (l : List (ℚ × ℚ)) :
    ∀ row ∈ bhRowsAux n v l, row.vr = v ∧ row.vt = v := by
  induction l generalizing n with
  | nil => intro row hrow; simp [bhRowsAux] at hrow
  | cons p l ih =>
      intro row hrow
      rcases List.mem_cons.mp hrow with h | h
      · subst h; exact ⟨rfl, rfl⟩
      · exact ih (n + 1) row h

theorem bhRowsAux_id_ge (n v : ℚ) (l : List (ℚ × ℚ)) :
    ∀ row ∈ bhRowsAux n v l, n ≤ row.id := by
  induction l generalizing n with
  | nil => intro row hrow; simp [bhRowsAux] at hrow
  | cons p l ih =>
      intro row hrow
      rcases List.mem_cons.mp hrow with h | h
      · subst h; exact le_refl _
      · have := ih (n + 1) row h
        linarith

theorem mem_le_foldl_max (l : List ℚ) (a : ℚ) : ∀ x ∈ l, x ≤ l.foldl max a := by
  induction l generalizing a with
  | nil => intro x hx; simp at hx
  | cons y l ih =>
      intro x hx
      rcases List.mem_cons.mp hx with h | h
      · subst h
        calc x ≤ max a x := le_max_right a x
          _ ≤ l.foldl max (max a x) := by
              clear ih hx
              induction l generalizing a x with
              | nil => simp
              | cons z l ih2 =>
                  simp only [List.foldl_cons]
                  exact le_trans (le_max_left _ z) (ih2 (max a x) z)
      · exact ih (max a y) x h

theorem mem_le_colMax (l : List ℚ) (x : ℚ) (hx : x ∈ l) : x ≤ colMax l :=
  mem_le_foldl_max l (l.headD 0) x hx

theorem mem_id_le_maxExistingId (S : SinglesTable) (B : BinariesTable) :
    ∀ row ∈ S.rows, row.id ≤ maxExistingId S B := by
  intro row hrow
  have h1 : row.id ≤ colMax (S.rows.map (·.id)) :=
    mem_le_colMax _ _ (List.mem_map.mpr ⟨row, hrow, rfl⟩)
  calc row.id ≤ colMax (S.rows.map (·.id)) := h1
    _ ≤ maxExistingId S B := le_trans (le_max_left _ _) (le_max_left _ _)

/-- C5: a valid `AddBlackHoles(Singles, Binaries, masses, radii)` call with
`k` positive masses and matching radii on non-empty tables succeeds and
appends exactly `k` new rows (total `N + k`): the output rows are a
permutation of the old rows plus a block whose ids are consecutive
starting one above the maximum over `Singles.id`, `Binaries.id1` and
`Binaries.id2` (hence strictly above every prior id), whose stellar type
is 14, `Reff = 2·(2.122e-6)·mass`, `r` from `radii`, `binind = 0`; and
`mass_of_cluster` grows by exactly the sum of the injected masses. -/
theorem c5_addBlackHoles (S : SinglesTable) (B : BinariesTable)
    (qm qr : List ℚ) (mc : ℚ)
    (_hSne : S.rows ≠ []) (_hBne : B.rows ≠ [])
    (hm : ∀ q ∈ qm, 0 < q) (hr : ∀ q ∈ qr, 0 < q) (hlen : qm.length = qr.length)
    (hmc : S.mass_of_cluster = some mc) :
    ∃ S2, addBlackHoles S B (.vals (qm.map PyVal.num)) (.vals (qr.map PyVal.num)) =
        .ok S2 ∧
      S2.rows.Perm (S.rows ++ bhRows S B qm qr) ∧
      S2.rows.length = S.rows.length + qm.length ∧
      (bhRows S B qm qr).map (·.id) =
        (List.range qm.length).map (fun j : ℕ => maxExistingId S B + 1 + (j : ℚ)) ∧
      (bhRows S B qm qr).map (·.k) = List.replicate qm.length 14 ∧
      (bhRows S B qm qr).map (·.m) = qm ∧
      (bhRows S B qm qr).map (·.Reff) = qm.map (fun q => 2 * q * SCHWARZSCHILD_RSUN) ∧
      (bhRows S B qm qr).map (·.r) = qr ∧
      (bhRows S B qm qr).map (·.binind) = List.replicate qm.length 0 ∧
      (∀ row ∈ S.rows, ∀ nrow ∈ bhRows S B qm qr, row.id < nrow.id) ∧
      S2.mass_of_cluster = some (mc + qm.sum) := by
  have hok := addBlackHoles_vals_ok S B qm qr mc hm hr hlen hmc
  have hziplen : (qm.zip qr).length = qm.length := by
    rw [List.length_zip, hlen, min_self]
  have hfst : (qm.zip qr).map Prod.fst = qm :=
    List.map_fst_zip qm qr (le_of_eq hlen)
  have hsnd : (qm.zip qr).map Prod.snd = qr :=
    List.map_snd_zip qm qr (ge_of_eq hlen)
  have hperm : ((S.rows ++ bhRows S B qm qr).mergeSort
      (fun a b => a.r ≤ b.r)).Perm (S.rows ++ bhRows S B qm qr) :=
    List.mergeSort_perm _ _
  refine ⟨_, hok, hperm, ?_, ?_, ?_, ?_, ?_, ?_, ?_, ?_, rfl⟩
  · rw [hperm.length_eq, List.length_append, bhRows, length_bhRowsAux, hziplen]
  · rw [bhRows, bhRowsAux_map_id, hziplen]
  · rw [bhRows, bhRowsAux_map_k, hziplen]
  · rw [bhRows, bhRowsAux_map_m, hfst]
  · rw [bhRows, bhRowsAux_map_Reff, hfst]
  · rw [bhRows, bhRowsAux_map_r, hsnd]
  · rw [bhRows, bhRowsAux_map_binind, hziplen]
  · intro row hrow nrow hnrow
    have h1 : row.id ≤ maxExistingId S B := mem_id_le_maxExistingId S B row hrow
    have h2 : maxExistingId S B + 1 ≤ nrow.id := bhRowsAux_id_ge _ _ _ nrow hnrow
    linarith

/-- Example Singles/Binaries pair for the injector witnesses: two stars
(ids 1, 2) and one binary (ids 3, 4), `mass_of_cluster = 8`. -/
def exS5 : SinglesTable :=
  { rows := [⟨1, 1, 3, 1, 1, -5, 2, 0⟩, ⟨2, 1, 5, 1, 2, 1, 3, 0⟩]
    mass_of_cluster := some 8 }

def exB5 : BinariesTable := { rows := [⟨1, 3, 1, 1, 1, 4, 1, 1, 1, 1, 0⟩] }

/-- C5 (witness): the C5 theorem applied to `exS5`/`exB5` with
`masses = [10, 20]`, `radii = [3, 4]`. -/
theorem c5_witness :
    (exS5.rows ≠ [] ∧ exB5.rows ≠ [] ∧ (∀ q ∈ [(10 : ℚ), 20], 0 < q) ∧
      (∀ q ∈ [(3 : ℚ), 4], 0 < q) ∧ [(10 : ℚ), 20].length = [(3 : ℚ), 4].length ∧
      exS5.mass_of_cluster = some 8) ∧
    (∃ S2, addBlackHoles exS5 exB5 (.vals ([(10 : ℚ), 20].map PyVal.num))
        (.vals ([(3 : ℚ), 4].map PyVal.num)) = .ok S2 ∧
      S2.rows.Perm (exS5.rows ++ bhRows exS5 exB5 [10, 20] [3, 4]) ∧
      S2.rows.length = exS5.rows.length + [(10 : ℚ), 20].length ∧
      (bhRows exS5 exB5 [10, 20] [3, 4]).map (·.id) =
        (List.range [(10 : ℚ), 20].length).map
          (fun j : ℕ => maxExistingId exS5 exB5 + 1 + (j : ℚ)) ∧
      (bhRows exS5 exB5 [10, 20] [3, 4]).map (·.k) =
        List.replicate [(10 : ℚ), 20].length 14 ∧
      (bhRows exS5 exB5 [10, 20] [3, 4]).map (·.m) = [10, 20] ∧
      (bhRows exS5 exB5 [10, 20] [3, 4]).map (·.Reff) =
        [(10 : ℚ), 20].map (fun q => 2 * q * SCHWARZSCHILD_RSUN) ∧
      (bhRows exS5 exB5 [10, 20] [3, 4]).map (·.r) = [3, 4] ∧
      (bhRows exS5 exB5 [10, 20] [3, 4]).map (·.binind) =
        List.replicate [(10 : ℚ), 20].length 0 ∧
      (∀ row ∈ exS5.rows, ∀ nrow ∈ bhRows exS5 exB5 [10, 20] [3, 4], row.id < nrow.id) ∧
      S2.mass_of_cluster = some (8 + [(10 : ℚ), 20].sum)) := by
  refine ⟨⟨by simp [exS5], by simp [exB5], ?_, ?_, by simp, by simp [exS5]⟩, ?_⟩
  · intro q hq
    rcases List.mem_cons.mp hq with h | h
    · subst h; norm_num
    · simp only [List.mem_singleton] at h; subst h; norm_num
  · intro q hq
    rcases List.mem_cons.mp hq with h | h
    · subst h; norm_num
    · simp only [List.mem_singleton] at h; subst h; norm_num
  · exact c5_addBlackHoles exS5 exB5 [10, 20] [3, 4] 8 (by simp [exS5]) (by simp [exB5])
      (by intro q hq; rcases List.mem_cons.mp hq with h | h
          · subst h; norm_num
          · simp only [List.mem_singleton] at h; subst h; norm_num)
      (by intro q hq; rcases List.mem_cons.mp hq with h | h
          · subst h; norm_num
          · simp only [List.mem_singleton] at h; subst h; norm_num)
      (by simp) (by simp [exS5])

/-- C9 (amended): every row injected by a valid `AddBlackHoles` call has
`vr` and `vt` both equal to 1% of `min(|min(vr)|, |min(vt)|)` — the
minimum of the absolute values of the two column *minima* (not the minimum
absolute velocity present in the cluster), and therefore zero whenever a
column minimum is exactly zero. -/
theorem c9_bh_velocities (S : SinglesTable) (B : BinariesTable)
    (qm qr : List ℚ) (mc : ℚ)
    (_hSne : S.rows ≠ []) (_hBne : B.rows ≠ [])
    (hm : ∀ q ∈ qm, 0 < q) (hr : ∀ q ∈ qr, 0 < q) (hlen : qm.length = qr.length)
    (hmc : S.mass_of_cluster = some mc) :
    ∃ S2, addBlackHoles S B (.vals (qm.map PyVal.num)) (.vals (qr.map PyVal.num)) =
        .ok S2 ∧
      S2.rows.Perm (S.rows ++ bhRows S B qm qr) ∧
      ∀ nrow ∈ bhRows S B qm qr,
        nrow.vr = (1 / 100) *
          min |colMin (S.rows.map (·.vr))| |colMin (S.rows.map (·.vt))| ∧
        nrow.vt = (1 / 100) *
          min |colMin (S.rows.map (·.vr))| |colMin (S.rows.map (·.vt))| := by
  have hok := addBlackHoles_vals_ok S B qm qr mc hm hr hlen hmc
  refine ⟨_, hok, List.mergeSort_perm _ _, ?_⟩
  intro nrow hnrow
  exact bhRowsAux_vel _ _ _ nrow hnrow

/-- Modelled from the spec: "the minimum absolute velocity already present
in the cluster" — the least `|v|` over both velocity columns together. -/
def specMinAbsVelocity (S : SinglesTable) : ℚ :=
  colMin ((S.rows.map (fun row => |row.vr|)) ++ (S.rows.map (fun row => |row.vt|)))

/-- The table produced by injecting one black hole (mass 1, radius 3) into
`exS5`. -/
def c9out : SinglesTable :=
  { rows := [⟨1, 1, 3, 1, 1, -5, 2, 0⟩, ⟨2, 1, 5, 1, 2, 1, 3, 0⟩,
             ⟨5, 14, 1, 2 * 1 * SCHWARZSCHILD_RSUN, 3, 1/50, 1/50, 0⟩]
    mass_of_cluster := some 9 }

/-- C9 (counterexample): on `exS5` the minimum absolute velocity present is
1 (from `vr = 1`), so the claim predicts injected velocities
`0.01·1 = 1/100`; the code instead computes `min(|min vr|, |min vt|) =
min(5, 2) = 2` and injects `1/50`. -/
theorem c9_counterexample :
    specMinAbsVelocity exS5 = 1 ∧
    addBlackHoles exS5 exB5 (.vals [.num 1]) (.vals [.num 3]) = .ok c9out ∧
    c9out.rows.map (·.vr) = [-5, 1, 1/50] ∧
    ((1 : ℚ)/50) ≠ (1/100) * specMinAbsVelocity exS5 := by
  refine ⟨?_, ?_, ?_, ?_⟩
  · norm_num [specMinAbsVelocity, colMin, exS5]
  · norm_num [addBlackHoles, parseNumArg, npFloatArray, bhRows, bhRowsAux, maxExistingId,
      minVelocity, colMax, colMin, exS5, exB5, c9out, SCHWARZSCHILD_RSUN, Except.map,
      List.mergeSort, List.merge, decide_eq_true_eq]
  · norm_num [c9out]
  · norm_num [specMinAbsVelocity, colMin, exS5]

/-- C9 (witness): the amended theorem applied to `exS5`/`exB5` with one
injected black hole. -/
theorem c9_witness :
    (exS5.rows ≠ [] ∧ exB5.rows ≠ [] ∧ (∀ q ∈ [(1 : ℚ)], 0 < q) ∧
      (∀ q ∈ [(3 : ℚ)], 0 < q) ∧ [(1 : ℚ)].length = [(3 : ℚ)].length ∧
      exS5.mass_of_cluster = some 8) ∧
    (∃ S2, addBlackHoles exS5 exB5 (.vals ([(1 : ℚ)].map PyVal.num))
        (.vals ([(3 : ℚ)].map PyVal.num)) = .ok S2 ∧
      S2.rows.Perm (exS5.rows ++ bhRows exS5 exB5 [1] [3]) ∧
      ∀ nrow ∈ bhRows exS5 exB5 [1] [3],
        nrow.vr = (1 / 100) *
          min |colMin (exS5.rows.map (·.vr))| |colMin (exS5.rows.map (·.vt))| ∧
        nrow.vt = (1 / 100) *
          min |colMin (exS5.rows.map (·.vr))| |colMin (exS5.rows.map (·.vt))|) := by
  refine ⟨⟨by simp [exS5], by simp [exB5], ?_, ?_, by simp, by simp [exS5]⟩, ?_⟩
  · intro q hq
    simp only [List.mem_singleton] at hq
    subst hq
    norm_num
  · intro q hq
    simp only [List.mem_singleton] at hq
    subst hq
    norm_num
  · exact c9_bh_velocities exS5 exB5 [1] [3] 8 (by simp [exS5]) (by simp [exB5])
      (by intro q hq; simp only [List.mem_singleton] at hq; subst hq; norm_num)
      (by intro q hq; simp only [List.mem_singleton] at hq; subst hq; norm_num)
      (by simp) (by simp [exS5])

/-- C4 (witness): the amended theorem applied to the one-star table
`exC1S` (scaling half) and to a concrete successful injection into `exS5`
(injector half). -/
theorem c4_witness :
    ((∀ row ∈ exC1S.rows, 0 < row.m) ∧ (∀ row ∈ exC1S.rows, 0 < row.r ∧ row.r < bigS) ∧
      0 ≤ exC1S.central_bh ∧ sortedByR exC1S.rows ∧
      addBlackHoles exS5 exB5 (.vals ([(1 : ℚ)].map PyVal.num))
          (.vals ([(3 : ℚ)].map PyVal.num)) =
        .ok { exS5 with
          rows := (exS5.rows ++ bhRows exS5 exB5 [1] [3]).mergeSort (fun a b => a.r ≤ b.r)
          mass_of_cluster := some (8 + [(1 : ℚ)].sum) }) ∧
    (sortedByR (scaleToNBodyUnits (fun q => q) exC1S cexEmptyB 1 0 false).1.rows ∧
      sortedByR ({ exS5 with
        rows := (exS5.rows ++ bhRows exS5 exB5 [1] [3]).mergeSort (fun a b => a.r ≤ b.r)
        mass_of_cluster := some (8 + [(1 : ℚ)].sum) } : SinglesTable).rows) := by
  have h1 : ∀ row ∈ exC1S.rows, 0 < row.m := by
    intro row hrow
    simp only [exC1S, List.mem_singleton] at hrow
    subst hrow
    norm_num
  have h2 : ∀ row ∈ exC1S.rows, 0 < row.r ∧ row.r < bigS := by
    intro row hrow
    simp only [exC1S, List.mem_singleton] at hrow
    subst hrow
    norm_num [bigS]
  have h3 : (0 : ℚ) ≤ exC1S.central_bh := by norm_num [exC1S]
  have h4 : sortedByR exC1S.rows := by simp [sortedByR, exC1S]
  have hok := addBlackHoles_vals_ok exS5 exB5 [1] [3] 8
    (by intro q hq; simp only [List.mem_singleton] at hq; subst hq; norm_num)
    (by intro q hq; simp only [List.mem_singleton] at hq; subst hq; norm_num)
    (by simp) (by simp [exS5])
  exact ⟨⟨h1, h2, h3, h4, hok⟩,
    c4_sorted_preserved (fun q => q) exC1S cexEmptyB 1 0 false exS5 exB5 _ _ _
      h1 h2 h3 h4 hok⟩

/-! ### Claim C10: frame conditions of the scaling engine -/

/-- C10: `ScaleToNBodyUnits` only touches `m`, `r`, `vr`, `vt`, `Reff` in
Singles and `m1`, `m2`, `a`, `Reff1`, `Reff2` in Binaries: the identifying
and discrete columns (`id`, `k`, `binind`; `index`, `id1`, `id2`, `k1`,
`k2`, `e`), the row counts, and the row order of both tables are unchanged
for every input pair. -/
theorem c10_frame_conditions (f : ℚ → ℚ) (S : SinglesTable) (B : BinariesTable)
    (vq cq : ℚ) (swcb : Bool) :
    (scaleToNBodyUnits f S B vq cq swcb).1.rows.map (·.id) = S.rows.map (·.id) ∧
    (scaleToNBodyUnits f S B vq cq swcb).1.rows.map (·.k) = S.rows.map (·.k) ∧
    (scaleToNBodyUnits f S B vq cq swcb).1.rows.map (·.binind) = S.rows.map (·.binind) ∧
    (scaleToNBodyUnits f S B vq cq swcb).1.rows.length = S.rows.length ∧
    (scaleToNBodyUnits f S B vq cq swcb).2.rows.map (·.index) = B.rows.map (·.index) ∧
    (scaleToNBodyUnits f S B vq cq swcb).2.rows.map (·.id1) = B.rows.map (·.id1) ∧
    (scaleToNBodyUnits f S B vq cq swcb).2.rows.map (·.id2) = B.rows.map (·.id2) ∧
    (scaleToNBodyUnits f S B vq cq swcb).2.rows.map (·.k1) = B.rows.map (·.k1) ∧
    (scaleToNBodyUnits f S B vq cq swcb).2.rows.map (·.k2) = B.rows.map (·.k2) ∧
    (scaleToNBodyUnits f S B vq cq swcb).2.rows.map (·.e) = B.rows.map (·.e) ∧
    (scaleToNBodyUnits f S B vq cq swcb).2.rows.length = B.rows.length := by
  rw [scaleToNBodyUnits_fst, scaleToNBodyUnits_snd]
  refine ⟨?_, ?_, ?_, ?_, ?_, ?_, ?_, ?_, ?_, ?_, ?_⟩ <;>
    simp [List.map_map, Function.comp_def]

/-! ### Claims C2, C3: the on-disk layout and the round trip -/

/-- `read` and `write` use the same (duplicated) extension dispatch. -/
theorem checkExtension_read_eq_write (filename : List Char) :
    checkExtensionRead filename = checkExtensionWrite filename := rfl

/-- Inversion of a successful `write`: a file kind was resolved and the
file content is exactly the block/header construction applied to the
(returned, possibly freshly scaled) tables. -/
theorem writeS0_central_bh (S : SinglesTable) (c : ℚ) :
    (writeS0 S c).central_bh = S.central_bh := by
  rw [writeS0]
  split <;> rfl

theorem writeS0_Mtot (S : SinglesTable) (c : ℚ) : Mtot (writeS0 S c) = Mtot S := by
  rw [writeS0]
  split <;> rfl

theorem write_ok_file (f : ℚ → ℚ) (S : SinglesTable) (B : BinariesTable)
    (fname : List Char) (kw : WriteKwargs)
    (S2 : SinglesTable) (B2 : BinariesTable) (file : CMCFile)
    (h : write f S B fname kw = .ok (S2, B2, file)) :
    ∃ kind, checkExtensionWrite fname = .ok kind ∧
      file = mkFile kind S2 B2 (resolveOpt kw.virial_radius S.virial_radius)
        (resolveOpt kw.tidal_radius S.tidal_radius)
        (resolveOpt kw.metallicity S.metallicity) := by
  rw [write] at h
  split at h
  · exact absurd h (by simp)
  · rename_i kind hkind
    refine ⟨kind, hkind, ?_⟩
    split at h
    · split at h
      · exact absurd h (by simp)
      · rw [writeAfterScale] at h
        split at h
        · exact absurd h (by simp)
        · simp only [Except.ok.injEq, Prod.mk.injEq] at h
          rw [← h.1, ← h.2.1, ← h.2.2]
    · split at h
      · exact absurd h (by simp)
      · rw [writeAfterScale] at h
        split at h
        · exact absurd h (by simp)
        · simp only [Except.ok.injEq, Prod.mk.injEq] at h
          rw [← h.1, ← h.2.1, ← h.2.2]

/-- Inversion of a successful `write` on a not-yet-scaled table: the
returned Singles table is the scaling engine's output, so in particular
its `central_bh` attribute has been normalized by the pre-scaling total
mass. -/
theorem write_ok_unscaled_cbh (f : ℚ → ℚ) (S : SinglesTable) (B : BinariesTable)
    (fname : List Char) (kw : WriteKwargs)
    (S2 : SinglesTable) (B2 : BinariesTable) (file : CMCFile)
    (h : write f S B fname kw = .ok (S2, B2, file))
    (hns : S.scaled_to_nbody_units = false) :
    S2.central_bh = S.central_bh / Mtot S ∧ S2.scaled_to_nbody_units = true := by
  rw [write] at h
  split at h
  · exact absurd h (by simp)
  · simp only [hns, Bool.false_eq_true, if_false] at h
    split at h
    · exact absurd h (by simp)
    · rw [writeAfterScale] at h
      split at h
      · exact absurd h (by simp)
      · simp only [Except.ok.injEq, Prod.mk.injEq] at h
        rw [← h.1, scaleToNBodyUnits_fst]
        exact ⟨by simp [writeS0_central_bh, writeS0_Mtot], rfl⟩

/-- C2: whenever `write` succeeds (either file format), `read` on the
produced file succeeds and returns the two tables exactly as stored: the
on-disk row counts are the real counts plus the sentinel rows (`N+2` and
`Nb+1`), the sentinel rows are still included (`read` does not strip
them), and the real data rows — the on-disk Singles block without its
first and last row, and the Binaries block without its first row — are
numerically identical to the (post-scaling) in-memory rows that `write`
serialized, with the header attributes as written. -/
theorem c2_roundtrip (f : ℚ → ℚ) (S : SinglesTable) (B : BinariesTable)
    (fname : List Char) (kw : WriteKwargs)
    (S2 : SinglesTable) (B2 : BinariesTable) (file : CMCFile)
    (h : write f S B fname kw = .ok (S2, B2, file)) :
    read fname file = .ok ({ rows := file.singles_block }, { rows := file.binaries_block }) ∧
    file.singles_block.length = S2.rows.length + 2 ∧
    file.binaries_block.length = B2.rows.length + 1 ∧
    (file.singles_block.drop 1).dropLast = S2.rows ∧
    file.binaries_block.drop 1 = B2.rows ∧
    file.header.MCLUS = S2.mass_of_cluster ∧
    file.header.Z = resolveOpt kw.metallicity S.metallicity := by
  obtain ⟨kind, hkind, hfile⟩ := write_ok_file f S B fname kw S2 B2 file h
  refine ⟨?_, ?_, ?_, ?_, ?_, ?_, ?_⟩
  · rw [read, checkExtension_read_eq_write, hkind]
  · rw [hfile]
    simp [mkFile]
  · rw [hfile]
    simp [mkFile]
  · rw [hfile]
    simp only [mkFile, List.cons_append, List.drop_succ_cons, List.drop_zero]
    exact List.dropLast_concat
  · rw [hfile]
    simp [mkFile]
  · rw [hfile]
    rfl
  · rw [hfile]
    rfl

/-- C3: the on-disk Singles block is exactly the real rows with one
all-zero row prepended (whose `r` is the smallest positive normal double
and whose `m` is the — normalized, when `write` itself ran the scaling —
central-black-hole mass) and one all-zero row appended whose `r` is the
`1e40` outer sentinel; the Binaries block has exactly one all-zero row
prepended and none appended; and `NOBJ`/`NBINARY` equal the on-disk
Singles row count minus 2 and Binaries row count minus 1. -/
theorem c3_sentinel_layout (f : ℚ → ℚ) (S : SinglesTable) (B : BinariesTable)
    (fname : List Char) (kw : WriteKwargs)
    (S2 : SinglesTable) (B2 : BinariesTable) (file : CMCFile)
    (h : write f S B fname kw = .ok (S2, B2, file)) :
    file.singles_block =
      ({ zeroSinglesRow with r := DBL_MIN, m := S2.central_bh } :: S2.rows) ++
        [{ zeroSinglesRow with r := OUTER_R }] ∧
    file.binaries_block = zeroBinariesRow :: B2.rows ∧
    file.header.NOBJ = (file.singles_block.length : ℤ) - 2 ∧
    file.header.NBINARY = (file.binaries_block.length : ℤ) - 1 ∧
    (S.scaled_to_nbody_units = false → S2.central_bh = S.central_bh / Mtot S) := by
  obtain ⟨kind, hkind, hfile⟩ := write_ok_file f S B fname kw S2 B2 file h
  refine ⟨by rw [hfile]; rfl, by rw [hfile]; rfl, by rw [hfile]; rfl,
    by rw [hfile]; rfl, ?_⟩
  intro hns
  exact (write_ok_unscaled_cbh f S B fname kw S2 B2 file h hns).1

/-- A pre-scaled one-star table with all required metadata set, used to
witness the serializer claims. -/
def exS2 : SinglesTable :=
  { rows := [⟨1, 1, 1/2, 1, 3, 1, 1, 0⟩]
    scaled_to_nbody_units := true
    metallicity := some (1/50)
    mass_of_cluster := some 5
    virial_radius := some 1
    tidal_radius := some 2 }

def exB2 : BinariesTable :=
  { rows := [⟨1, 3, 1, 1, 1, 4, 1, 1, 1, 1, 0⟩]
    scaled_to_nbody_units := true }

/-- The file `write` produces for `exS2`/`exB2` under an `.hdf5` name. -/
def exFile2 : CMCFile :=
  { kind := .hdf5
    singles_block := [⟨0, 0, 0, 0, DBL_MIN, 0, 0, 0⟩, ⟨1, 1, 1/2, 1, 3, 1, 1, 0⟩,
                      ⟨0, 0, 0, 0, OUTER_R, 0, 0, 0⟩]
    binaries_block := [⟨0, 0, 0, 0, 0, 0, 0, 0, 0, 0, 0⟩, ⟨1, 3, 1, 1, 1, 4, 1, 1, 1, 1, 0⟩]
    header := { EXTNAME := "CLUS_OBJ_DATA", NOBJ := 1, NBINARY := 1, MCLUS := some 5,
                RVIR := some 1, RTID := some 2, Z := some (1/50) } }

/-- The same file content under a `.fits` name. -/
def exFile3 : CMCFile :=
  { kind := .fits
    singles_block := [⟨0, 0, 0, 0, DBL_MIN, 0, 0, 0⟩, ⟨1, 1, 1/2, 1, 3, 1, 1, 0⟩,
                      ⟨0, 0, 0, 0, OUTER_R, 0, 0, 0⟩]
    binaries_block := [⟨0, 0, 0, 0, 0, 0, 0, 0, 0, 0, 0⟩, ⟨1, 3, 1, 1, 1, 4, 1, 1, 1, 1, 0⟩]
    header := { EXTNAME := "CLUS_OBJ_DATA", NOBJ := 1, NBINARY := 1, MCLUS := some 5,
                RVIR := some 1, RTID := some 2, Z := some (1/50) } }

theorem write_exS2_hdf5 :
    write (fun q => q) exS2 exB2 ("input.hdf5".data) {} = .ok (exS2, exB2, exFile2) := by
  have hext : checkExtensionWrite ("input.hdf5".data) = .ok .hdf5 := by decide
  have hmet : (some ((1 : ℚ)/50) = (none : Option ℚ)) = False := by simp
  norm_num [write, hext, writeAfterScale, resolveOpt, mkFile, exS2, exB2, exFile2,
    zeroSinglesRow, zeroBinariesRow, hmet]

theorem write_exS2_fits :
    write (fun q => q) exS2 exB2 ("input.fits".data) {} = .ok (exS2, exB2, exFile3) := by
  have hext : checkExtensionWrite ("input.fits".data) = .ok .fits := by decide
  have hmet : (some ((1 : ℚ)/50) = (none : Option ℚ)) = False := by simp
  norm_num [write, hext, writeAfterScale, resolveOpt, mkFile, exS2, exB2, exFile3,
    zeroSinglesRow, zeroBinariesRow, hmet]

/-- C2 (witness): the round-trip theorem applied to a concrete successful
`.hdf5` write. -/
theorem c2_witness :
    write (fun q => q) exS2 exB2 ("input.hdf5".data) {} = .ok (exS2, exB2, exFile2) ∧
    (read ("input.hdf5".data) exFile2 =
        .ok ({ rows := exFile2.singles_block }, { rows := exFile2.binaries_block }) ∧
      exFile2.singles_block.length = exS2.rows.length + 2 ∧
      exFile2.binaries_block.length = exB2.rows.length + 1 ∧
      (exFile2.singles_block.drop 1).dropLast = exS2.rows ∧
      exFile2.binaries_block.drop 1 = exB2.rows ∧
      exFile2.header.MCLUS = exS2.mass_of_cluster ∧
      exFile2.header.Z = resolveOpt (WriteKwargs.metallicity {}) exS2.metallicity) :=
  ⟨write_exS2_hdf5,
    c2_roundtrip (fun q => q) exS2 exB2 ("input.hdf5".data) {} exS2 exB2 exFile2
      write_exS2_hdf5⟩

/-- C3 (witness): the sentinel-layout theorem applied to a concrete
successful `.fits` write. -/
theorem c3_witness :
    write (fun q => q) exS2 exB2 ("input.fits".data) {} = .ok (exS2, exB2, exFile3) ∧
    (exFile3.singles_block =
        ({ zeroSinglesRow with r := DBL_MIN, m := exS2.central_bh } :: exS2.rows) ++
          [{ zeroSinglesRow with r := OUTER_R }] ∧
      exFile3.binaries_block = zeroBinariesRow :: exB2.rows ∧
      exFile3.header.NOBJ = (exFile3.singles_block.length : ℤ) - 2 ∧
      exFile3.header.NBINARY = (exFile3.binaries_block.length : ℤ) - 1 ∧
      (exS2.scaled_to_nbody_units = false →
        exS2.central_bh = exS2.central_bh / Mtot exS2)) :=
  ⟨write_exS2_fits,
    c3_sentinel_layout (fun q => q) exS2 exB2 ("input.fits".data) {} exS2 exB2 exFile3
      write_exS2_fits⟩

/-! ### Claim C7: write with unset metallicity -/

theorem writeS0_metallicity (S : SinglesTable) (c : ℚ) :
    (writeS0 S c).metallicity = S.metallicity := by
  rw [writeS0]
  split <;> rfl

/-- C7 (amended): writing a not-yet-scaled table whose `metallicity`
attribute is unset raises the fatal metallicity `ValueError` and produces
no output file — but the operation is *not* aborted before mutation: the
metallicity check runs after the scaling step, so at the moment of the
raise both tables have already been scaled in place (their
`scaled_to_nbody_units` flags are set).  Only tables that arrive already
scaled are left untouched. -/
theorem c7_metallicity_error (f : ℚ → ℚ) (S : SinglesTable) (B : BinariesTable)
    (fname : List Char) (kw : WriteKwargs) (kind : FileKind) (vq : ℚ)
    (hmet : S.metallicity = none)
    (hns : S.scaled_to_nbody_units = false)
    (hext : checkExtensionWrite fname = .ok kind)
    (hvr : resolveOpt kw.virial_radius S.virial_radius = some vq) :
    ∃ S2 B2, write f S B fname kw = .error (.valueError metErrMsg, S2, B2) ∧
      S2.scaled_to_nbody_units = true ∧ B2.scaled_to_nbody_units = true := by
  refine ⟨(scaleToNBodyUnits f (writeS0 S (kw.central_bh.getD S.central_bh)) B vq
      (kw.central_bh.getD S.central_bh)
      (kw.scale_with_central_bh.getD S.scale_with_central_bh)).1,
    (scaleToNBodyUnits f (writeS0 S (kw.central_bh.getD S.central_bh)) B vq
      (kw.central_bh.getD S.central_bh)
      (kw.scale_with_central_bh.getD S.scale_with_central_bh)).2, ?_, ?_, ?_⟩
  · rw [write, hext]
    simp only [hns, Bool.false_eq_true, if_false, hvr]
    rw [writeAfterScale, if_pos]
    rw [scaleToNBodyUnits_fst]
    show (writeS0 S _).metallicity = none
    rw [writeS0_metallicity, hmet]
  · rw [scaleToNBodyUnits_fst]
  · rw [scaleToNBodyUnits_snd]

/-- An unscaled one-star table with metallicity unset (virial radius set so
that the scaling step completes). -/
def cexS7 : SinglesTable := { rows := [⟨1, 1, 2, 1, 1, 0, 0, 0⟩], virial_radius := some 1 }

/-- The state of `cexS7` at the moment `write` raises the metallicity
error: already scaled in place. -/
def cexS7post : SinglesTable :=
  { rows := [⟨1, 1, 1, PARSEC_PER_RSUN, (10 ^ 100 - 1) / 10 ^ 100, 0, 0, 0⟩]
    scaled_to_nbody_units := true
    metallicity := none
    mass_of_cluster := some 2
    virial_radius := some 1
    tidal_radius := none
    central_bh := 0 }

/-- C7 (counterexample): on `cexS7` (metallicity unset), `write` raises the
metallicity error with no file produced, but the Singles rows at the raise
differ from the input rows — the table was mutated (scaled) before the
exception, contradicting the claim's "leaves the tables untouched". -/
theorem c7_counterexample :
    cexS7.metallicity = none ∧
    write (fun q => q) cexS7 cexEmptyB ("input.hdf5".data) {} =
      .error (.valueError metErrMsg, cexS7post, { rows := [], scaled_to_nbody_units := true }) ∧
    cexS7post.rows ≠ cexS7.rows := by
  have hext : checkExtensionWrite ("input.hdf5".data) = .ok .hdf5 := by decide
  refine ⟨rfl, ?_, ?_⟩
  · rw [write, hext]
    norm_num [cexS7, cexEmptyB, writeS0, writeAfterScale, resolveOpt, scaleToNBodyUnits,
      scaleCore, peOf, keOf, shellTerms, invDiffs, radiusP1, cumsum, cumsumAux, bhTerm,
      bigS, PARSEC_PER_RSUN, cexS7post]
  · norm_num [cexS7, cexS7post, PARSEC_PER_RSUN]

/-- C7 (witness): the amended theorem applied to `cexS7`. -/
theorem c7_witness :
    (cexS7.metallicity = none ∧ cexS7.scaled_to_nbody_units = false ∧
      checkExtensionWrite ("input.hdf5".data) = .ok .hdf5 ∧
      resolveOpt (WriteKwargs.virial_radius {}) cexS7.virial_radius = some 1) ∧
    (∃ S2 B2, write (fun q => q) cexS7 cexEmptyB ("input.hdf5".data) {} =
        .error (.valueError metErrMsg, S2, B2) ∧
      S2.scaled_to_nbody_units = true ∧ B2.scaled_to_nbody_units = true) := by
  have hext : checkExtensionWrite ("input.hdf5".data) = .ok .hdf5 := by decide
  have hvr : resolveOpt (WriteKwargs.virial_radius {}) cexS7.virial_radius = some 1 := by
    simp [resolveOpt, cexS7]
  exact ⟨⟨rfl, rfl, hext, hvr⟩,
    c7_metallicity_error (fun q => q) cexS7 cexEmptyB ("input.hdf5".data) {} .hdf5 1
      rfl rfl hext hvr⟩

/-! ### Claim C8: filename dispatch -/

/-- True when `fn` ends with the suffix `suf` (used to state what the
claim's "suffix" wording would require). -/
def endsIn (fn suf : List Char) : Bool := (fn.drop (fn.length - suf.length)) == suf

/-- C8 (amended): `read` and `write` share identical dispatch logic, but
the file kind is selected by *substring containment*, not by suffix:
`.hdf5` or `.h5` anywhere in the name selects HDF5, else `.fits` anywhere
selects FITS, and only a filename containing none of the three substrings
raises the "extension not recognized" `ValueError` — identically in `read`
and `write` and before any I/O (the error carries the untouched tables and
no file).  A filename whose suffix is `.csv` can still be accepted when it
contains a recognized substring elsewhere. -/
theorem c8_extension_dispatch (fname : List Char) :
    checkExtensionRead fname = checkExtensionWrite fname ∧
    (containsSub fname (".hdf5".data) = false →
     containsSub fname (".h5".data) = false →
     containsSub fname (".fits".data) = false →
      checkExtensionWrite fname = .error (.valueError extErrMsg) ∧
      (∀ (f : ℚ → ℚ) (S : SinglesTable) (B : BinariesTable) (kw : WriteKwargs),
        write f S B fname kw = .error (.valueError extErrMsg, S, B)) ∧
      (∀ file : CMCFile, read fname file = .error (.valueError extErrMsg))) := by
  refine ⟨rfl, ?_⟩
  intro h1 h2 h3
  have hext : checkExtensionWrite fname = .error (.valueError extErrMsg) := by
    rw [checkExtensionWrite, h1, h2, h3]
    rfl
  refine ⟨hext, ?_, ?_⟩
  · intro f S B kw
    rw [write, hext]
  · intro file
    rw [read, checkExtension_read_eq_write, hext]

/-- C8 (counterexample): `"data.hdf5.csv"` has suffix `.csv`, yet both
`read` and `write` dispatch it to the HDF5 format instead of raising the
"extension not recognized" error, because the dispatch tests substring
containment rather than the suffix. -/
theorem c8_counterexample :
    endsIn ("data.hdf5.csv".data) (".csv".data) = true ∧
    checkExtensionWrite ("data.hdf5.csv".data) = .ok .hdf5 ∧
    checkExtensionRead ("data.hdf5.csv".data) = .ok .hdf5 := by
  refine ⟨by decide, by decide, by decide⟩

/-- C8 (witness): the amended theorem applied to `"data.csv"`, which
contains none of the recognized substrings. -/
theorem c8_witness :
    (containsSub ("data.csv".data) (".hdf5".data) = false ∧
     containsSub ("data.csv".data) (".h5".data) = false ∧
     containsSub ("data.csv".data) (".fits".data) = false) ∧
    (checkExtensionRead ("data.csv".data) = checkExtensionWrite ("data.csv".data) ∧
     checkExtensionWrite ("data.csv".data) = .error (.valueError extErrMsg) ∧
     write (fun q => q) exS2 exB2 ("data.csv".data) {} =
       .error (.valueError extErrMsg, exS2, exB2) ∧
     read ("data.csv".data) exFile2 = .error (.valueError extErrMsg)) := by
  have h1 : containsSub ("data.csv".data) (".hdf5".data) = false := by decide
  have h2 : containsSub ("data.csv".data) (".h5".data) = false := by decide
  have h3 : containsSub ("data.csv".data) (".fits".data) = false := by decide
  obtain ⟨ha, hb⟩ := c8_extension_dispatch ("data.csv".data)
  obtain ⟨hc, hd, he⟩ := hb h1 h2 h3
  exact ⟨⟨h1, h2, h3⟩, ha, hc, hd (fun q => q) exS2 exB2 {}, he exFile2⟩

/-! ### Claim C6: AddBlackHoles input validation -/

/-- C6 (evaluation at the failing input): `AddBlackHoles` with
`masses = ["abc"]` surfaces numpy's conversion `ValueError` — not the
`TypeError` promised by the claim and by the module's own (unreachable)
`raise TypeError("List of masses must all be numeric")` handler, which
catches `AttributeError` although `np.array(..., dtype=float)` raises
`ValueError` for non-convertible strings.  The error is raised before any
mutation (the table comes back unchanged), and the non-positive and
length-mismatch value errors of the claim do hold, also without mutation. -/
theorem c6_validation_eval :
    addBlackHoles exS5 exB5 (.vals [.str "abc"]) (.vals [.num 1]) =
      .error (.valueError "could not convert string to float", exS5) ∧
    addBlackHoles exS5 exB5 (.vals [.num (-1)]) (.vals [.num 1]) =
      .error (.valueError "Masses must be greater than 0", exS5) ∧
    addBlackHoles exS5 exB5 (.vals [.num 1, .num 2]) (.vals [.num 1]) =
      .error (.valueError "masses and radii must be the same length", exS5) := by
  refine ⟨rfl, ?_, ?_⟩ <;>
    norm_num [addBlackHoles, parseNumArg, npFloatArray, Except.map]

end Cosmic
